import Mathlib

/-!
Verification of the web discovery / content-extraction core of the
interview-prep agent repository.

The Python sources are shallowly embedded:
  * strings are `String` / `List Char`, with Python's `str.strip`,
    `str.lower`, `str.replace`, `str.title`, `str.split` modelled as
    executable functions on character lists (ASCII-faithful; the inputs
    handled by the claims are ASCII);
  * dynamic JSON-like payloads are the inductive type `Py`;
  * fallible remote calls are parameters of type `Except PyExc _`
    (an exception or the returned payload), so a theorem quantifying
    over them covers every behavior of the external fetch layer;
  * functions that can raise return `Except String _`.
-/

namespace InterviewPrep

/-! ## Character classes (numeric codepoints, mirror the Python/regex classes) -/

/-- Character of the regex class `[a-zA-Z]` (codepoints 97-122, 65-90). -/
def asciiLetterB (c : Char) : Bool :=
  (97 ≤ c.toNat && c.toNat ≤ 122) || (65 ≤ c.toNat && c.toNat ≤ 90)

/-- Character of the regex class `[0-9]` (codepoints 48-57). -/
def asciiDigitB (c : Char) : Bool :=
  48 ≤ c.toNat && c.toNat ≤ 57

/-- Character of the regex class `[a-zA-Z0-9.-]` used by `_DOMAIN_RE`
    (`.` is 46, `-` is 45). -/
def domainChar (c : Char) : Bool :=
  asciiLetterB c || asciiDigitB c || c.toNat == 46 || c.toNat == 45

/-- Characters Python's `str.isspace` recognises (the set `str.strip()`
    removes): ASCII whitespace, the C1/Unicode space code points. -/
def pyIsSpace (c : Char) : Bool :=
  c.toNat == 32 || c.toNat == 9 || c.toNat == 10 || c.toNat == 13 ||
  c.toNat == 11 || c.toNat == 12 ||
  (28 ≤ c.toNat && c.toNat ≤ 31) || c.toNat == 133 || c.toNat == 160 ||
  c.toNat == 5760 || (8192 ≤ c.toNat && c.toNat ≤ 8202) ||
  c.toNat == 8232 || c.toNat == 8233 || c.toNat == 8239 ||
  c.toNat == 8287 || c.toNat == 12288

/-- The characters `is_safe_domain` rejects explicitly:
    space, backslash, double quote, single quote (codepoints 32, 92, 34, 39). -/
def badDomainChar (c : Char) : Bool :=
  c.toNat == 32 || c.toNat == 92 || c.toNat == 34 || c.toNat == 39

/-- ASCII lowercasing of one character, as Python's `str.lower` acts on
    the ASCII range (the claims' inputs are ASCII). -/
def pyLowerChar (c : Char) : Char :=
  match c with
  | 'A' => 'a' | 'B' => 'b' | 'C' => 'c' | 'D' => 'd' | 'E' => 'e'
  | 'F' => 'f' | 'G' => 'g' | 'H' => 'h' | 'I' => 'i' | 'J' => 'j'
  | 'K' => 'k' | 'L' => 'l' | 'M' => 'm' | 'N' => 'n' | 'O' => 'o'
  | 'P' => 'p' | 'Q' => 'q' | 'R' => 'r' | 'S' => 's' | 'T' => 't'
  | 'U' => 'u' | 'V' => 'v' | 'W' => 'w' | 'X' => 'x' | 'Y' => 'y'
  | 'Z' => 'z'
  | other => other

/-- ASCII uppercasing of one character (for Python's `str.title`). -/
def pyUpperChar (c : Char) : Char :=
  match c with
  | 'a' => 'A' | 'b' => 'B' | 'c' => 'C' | 'd' => 'D' | 'e' => 'E'
  | 'f' => 'F' | 'g' => 'G' | 'h' => 'H' | 'i' => 'I' | 'j' => 'J'
  | 'k' => 'K' | 'l' => 'L' | 'm' => 'M' | 'n' => 'N' | 'o' => 'O'
  | 'p' => 'P' | 'q' => 'Q' | 'r' => 'R' | 's' => 'S' | 't' => 'T'
  | 'u' => 'U' | 'v' => 'V' | 'w' => 'W' | 'x' => 'X' | 'y' => 'Y'
  | 'z' => 'Z'
  | other => other

/-! ## String primitives on character lists -/

/-- Python `str.strip()`: drop `str.isspace` characters from both ends. -/
def pyStripL (l : List Char) : List Char :=
  ((l.dropWhile pyIsSpace).reverse.dropWhile pyIsSpace).reverse

/-- Python `str.lower()` (ASCII range). -/
def pyLowerL (l : List Char) : List Char :=
  l.map pyLowerChar

/-- Python `s.startswith(p)` as a Boolean on lists. -/
def strStartsWith (s p : String) : Bool :=
  p.data.isPrefixOf s.data

/-- One fuel-measured pass of Python `str.replace`: replace each
    non-overlapping occurrence of `pat` (nonempty) left to right. -/
def replaceFuel : Nat → List Char → List Char → List Char → List Char
  | 0, s, _, _ => s
  | n + 1, s, pat, rep =>
    match s with
    | [] => []
    | c :: rest =>
      if pat ≠ [] && pat.isPrefixOf (c :: rest) then
        rep ++ replaceFuel n ((c :: rest).drop pat.length) pat rep
      else
        c :: replaceFuel n rest pat rep

/-- Python `s.replace(pat, rep)` (for nonempty `pat`, its behavior:
    non-overlapping occurrences replaced left to right). -/
def strReplace (s pat rep : String) : String :=
  ⟨replaceFuel s.data.length s.data pat.data rep.data⟩

/-- Python `str.title()` on ASCII: a letter that starts a run of letters
    is uppercased, every other letter is lowercased; the Boolean argument
    records whether the previous character was a letter. -/
def pyTitleAux : Bool → List Char → List Char
  | _, [] => []
  | prevAlpha, c :: rest =>
    (if asciiLetterB c then
       (if prevAlpha then pyLowerChar c else pyUpperChar c)
     else c) :: pyTitleAux (asciiLetterB c) rest

/-- Python `str.title()` (ASCII range). -/
def pyTitle (s : String) : String :=
  ⟨pyTitleAux false s.data⟩

/-- Suffix of `l` after the last `sep`; the last element of
    Python's `l.split(sep)`. -/
def lastSegAfter (sep : Char) (l : List Char) : List Char :=
  (l.reverse.takeWhile (fun c => c ≠ sep)).reverse

/-- Python `s.strip('/')`: drop slashes from both ends. -/
def stripSlashesL (l : List Char) : List Char :=
  ((l.dropWhile (fun c => c = '/')).reverse.dropWhile (fun c => c = '/')).reverse

/-- Order-preserving deduplication (the `seen`-set loops of the source). -/
def dedupe (l : List String) : List String :=
  l.foldl (fun acc u => if u ∈ acc then acc else acc ++ [u]) []

/-! ## utils/validators.py -/

/-- Witness that position `i` splits `l` as required by the regex
    `^[a-zA-Z0-9.-]+\.[a-zA-Z]\x7b2,\x7d$`: a nonempty class-`[a-zA-Z0-9.-]`
    chunk, a literal dot at `i`, then at least two ASCII letters running to
    the end of the string. -/
def grammarAt (l : List Char) (i : Nat) : Bool :=
  !(l.take i).isEmpty && (l.take i).all domainChar &&
  ((l.drop i).head? == some '.') &&
  (l.drop (i + 1)).all asciiLetterB && decide (2 ≤ (l.drop (i + 1)).length)

/-- Semantics of `_DOMAIN_RE.match(s)` (for strings with no trailing
    newline, which is all the call site can produce after `strip()`):
    some split position realises the pattern. -/
def grammarMatchL (l : List Char) : Bool :=
  (List.range l.length).any (grammarAt l)

/-- Netloc extraction of `urllib.parse.urlparse` restricted to the inputs
    the sources feed it: a string beginning with `http://` or `https://`.
    The netloc is everything after the `//` up to the first `/`, `?` or `#`;
    urlparse raises `ValueError` (here `none`) on a mismatched square
    bracket in the netloc. -/
def urlparseNetloc (l : List Char) : Option (List Char) :=
  let rest := if ("https://".data.isPrefixOf l) then l.drop 8 else l.drop 7
  let netloc := rest.takeWhile (fun c => c ≠ '/' && c ≠ '?' && c ≠ '#')
  if ((('[' ∈ netloc) : Bool) != ((']' ∈ netloc) : Bool)) then none
  else some netloc

/-- Source `is_safe_domain` (utils/validators.py): strip and lowercase,
    replace a `http(s)://`-prefixed string by its netloc (`False` if
    urlparse raises), then require the hostname grammar and the absence of
    space, backslash and quote characters. -/
def is_safe_domainL (l : List Char) : Bool :=
  let d := pyLowerL (pyStripL l)
  if strStartsWith ⟨d⟩ "http://" || strStartsWith ⟨d⟩ "https://" then
    match urlparseNetloc d with
    | none => false
    | some nl => grammarMatchL nl && !(nl.any badDomainChar)
  else
    grammarMatchL d && !(d.any badDomainChar)

/-- String-level wrapper for `is_safe_domain`. -/
def is_safe_domain (s : String) : Bool :=
  is_safe_domainL s.data

/-- Source `ensure_https` (utils/validators.py). -/
def ensureHttpsL (l : List Char) : List Char :=
  let s := pyStripL l
  if s.isEmpty then s
  else if "http://".data.isPrefixOf s then "https://".data ++ s.drop 7
  else if !("https://".data.isPrefixOf s) then "https://".data ++ s
  else s

/-- String-level wrapper for `ensure_https`. -/
def ensure_https (s : String) : String :=
  ⟨ensureHttpsL s.data⟩

/-- Field extraction of `urlparse` restricted to `ensure_https` outputs
    (the empty string, or a string beginning with `https://`), returning
    `(netloc, path)`; `none` models the `ValueError` raised on a
    mismatched square bracket in the netloc.  For a scheme-less input
    (only the empty string can reach this branch here) the netloc is
    empty and the path is everything before `?`/`#`. -/
def urlparsePair (l : List Char) : Option (List Char × List Char) :=
  if "https://".data.isPrefixOf l then
    let rest := l.drop 8
    let nl := rest.takeWhile (fun c => c ≠ '/' && c ≠ '?' && c ≠ '#')
    let after := rest.dropWhile (fun c => c ≠ '/' && c ≠ '?' && c ≠ '#')
    if ((('[' ∈ nl) : Bool) != ((']' ∈ nl) : Bool)) then none
    else some (nl, after.takeWhile (fun c => c ≠ '?' && c ≠ '#'))
  else
    some ([], l.takeWhile (fun c => c ≠ '?' && c ≠ '#'))

/-- The character class kept by the path filter of `sanitize_url`
    (letters, digits, underscore 95, dot 46, slash 47, hyphen 45). -/
def safePathChar (c : Char) : Bool :=
  asciiLetterB c || asciiDigitB c ||
  c.toNat == 95 || c.toNat == 46 || c.toNat == 47 || c.toNat == 45

/-- Source `urlunparse(("https", netloc, path, "", "", ""))`
    (urllib's reassembly for an empty query/params/fragment). -/
def urlunparseHttps (netloc path : List Char) : List Char :=
  let url :=
    if !netloc.isEmpty || path.take 2 = ['/', '/'] then
      let url2 := if !path.isEmpty && path.take 1 ≠ ['/'] then '/' :: path else path
      ['/', '/'] ++ netloc ++ url2
    else path
  "https:".data ++ url

/-- Source `sanitize_url` (utils/validators.py): `ensure_https`, parse,
    lowercase the netloc, keep only safe path characters (defaulting the
    empty path to `/`), reassemble; on a parse failure return the
    `ensure_https` output unchanged (fail-open). -/
def sanitizeL (l : List Char) : List Char :=
  match urlparsePair (ensureHttpsL l) with
  | none => ensureHttpsL l
  | some (nl, path) =>
    urlunparseHttps (pyLowerL nl)
      ((if path.isEmpty then ['/'] else path).filter safePathChar)

/-- String-level wrapper for `sanitize_url`. -/
def sanitize_url (s : String) : String :=
  ⟨sanitizeL s.data⟩

/-! ## Dynamic payloads

External services answer with arbitrary JSON-like Python values; `Py` is
their embedding.  `int` stands in for every non-string scalar. -/

inductive Py where
  | str : String → Py
  | dict : List (String × Py) → Py
  | list : List Py → Py
  | none : Py
  | int : Int → Py

/-- Python `d.get(k)` on a dict: the value at `k`, defaulting to `None`. -/
def pyGet (kvs : List (String × Py)) (k : String) : Py :=
  match kvs.find? (fun kv => kv.1 = k) with
  | some kv => kv.2
  | Option.none => Py.none

/-- Python `d.get(k, default)`. -/
def pyGetD (kvs : List (String × Py)) (k : String) (dflt : Py) : Py :=
  match kvs.find? (fun kv => kv.1 = k) with
  | some kv => kv.2
  | Option.none => dflt

/-- Python truthiness of a `Py` value. -/
def pyTruthy : Py → Bool
  | Py.str s => !s.data.isEmpty
  | Py.dict kvs => !kvs.isEmpty
  | Py.list items => !items.isEmpty
  | Py.none => false
  | Py.int n => n ≠ 0

/-- Python `a or b` on payload values: `a` if truthy, else `b`. -/
def pyOr (a b : Py) : Py :=
  if pyTruthy a then a else b

/-- Python `isinstance(v, str) and v.strip()`: the string, provided `v` is
    a string that is nonempty after stripping whitespace. -/
def strOk : Py → Option String
  | Py.str s => if (pyStripL s.data).isEmpty then Option.none else some s
  | _ => Option.none

/-- Python substring containment `pat in s`. -/
def strContains (s pat : String) : Bool :=
  (List.range (s.data.length + 1)).any (fun i => pat.data.isPrefixOf (s.data.drop i))

/-- A raised Python exception: its type name and message. -/
structure PyExc where
  kind : String
  msg : String
deriving DecidableEq

/-! ## tools/firecrawl.py -/

/-- Source `KEY_PAGES` (tools/firecrawl.py). -/
def KEY_PAGES : List String :=
  ["about", "about-us", "our-story", "company", "team", "people", "leadership",
   "careers", "jobs", "culture", "values", "mission"]

/-- The deterministic seed candidates of `find_candidate_urls`:
    the homepage plus one path per `KEY_PAGES` keyword. -/
def seedUrls (domain : String) : List String :=
  ensure_https domain :: KEY_PAGES.map (fun p => ensure_https domain ++ "/" ++ p)

/-- The item list `find_candidate_urls` reads from a `Firecrawl.MapWebsite`
    payload: a list under `links`, else a list under `data`, else nothing. -/
def mapItems (kvs : List (String × Py)) : Option (List Py) :=
  match pyGet kvs "links" with
  | Py.list ls => some ls
  | _ =>
    match pyGet kvs "data" with
    | Py.list ls => some ls
    | _ => Option.none

/-- One map-site item: a string, or a dict with a string `url`, is kept
    (sanitized) when its lowercased text contains a `KEY_PAGES` keyword. -/
def mapLinkOf (it : Py) : Option String :=
  match it with
  | Py.str u =>
    if KEY_PAGES.any (fun k => strContains ⟨pyLowerL u.data⟩ k) then
      some (sanitize_url u)
    else Option.none
  | Py.dict ikvs =>
    match pyGet ikvs "url" with
    | Py.str u =>
      if KEY_PAGES.any (fun k => strContains ⟨pyLowerL u.data⟩ k) then
        some (sanitize_url u)
      else Option.none
    | _ => Option.none
  | _ => Option.none

/-- The links `find_candidate_urls` keeps from a `Firecrawl.MapWebsite`
    payload (the body of its `try` block after the `execute` call). -/
def mapLinks (payload : Py) : List String :=
  match payload with
  | Py.dict kvs =>
    match mapItems kvs with
    | some ls => ls.filterMap mapLinkOf
    | Option.none => []
  | _ => []

/-- Source `FirecrawlTool.find_candidate_urls`.  `mapResult` is the outcome
    of the `Firecrawl.MapWebsite` remote call (an exception or a payload);
    any exception there is swallowed and the deterministic seed list
    stands alone.  Raises (returns `Except.error`) only on an unsafe
    domain. -/
def find_candidate_urls (domain : String) (mapResult : Except PyExc Py) :
    Except String (List String) :=
  if !is_safe_domain domain then Except.error "Invalid or unsafe domain"
  else
    let urls := seedUrls domain ++
      (match mapResult with
       | Except.ok payload => mapLinks payload
       | Except.error _ => [])
    Except.ok ((dedupe urls).take 8)

/-- Source `FirecrawlTool._extract_markdown`: priority extraction of text
    from a heterogeneous scrape payload. -/
def extract_markdown (payload : Py) : Option String :=
  match payload with
  | Py.str s => if (pyStripL s.data).isEmpty then Option.none else some s
  | Py.dict kvs =>
    match strOk (pyGet kvs "markdown") with
    | some md => some md
    | Option.none =>
      let data := pyGet kvs "data"
      match (match data with
             | Py.dict dd => strOk (pyGet dd "markdown")
             | _ => Option.none) with
      | some md => some md
      | Option.none =>
        match (match data with
               | Py.list items =>
                 items.findSome? (fun it =>
                   match it with
                   | Py.dict ikvs => strOk (pyGet ikvs "markdown")
                   | _ => Option.none)
               | _ => Option.none) with
        | some md => some md
        | Option.none =>
          strOk (pyOr (pyGet kvs "content")
                 (pyOr (match data with
                        | Py.dict dd => pyGet dd "content"
                        | _ => Py.none)
                       (pyGet kvs "text")))
  | _ => Option.none

/-- Page key of a scraped URL: Python `u.split("/")[-1] or "home"`. -/
def pageKey (u : String) : String :=
  let seg := lastSegAfter '/' u.data
  if seg.isEmpty then "home" else ⟨seg⟩

/-- Python dict insertion `m[k] = v`: replace in place if the key exists,
    else append; the entry count grows only on a fresh key. -/
def dictSet (m : List (String × String)) (k v : String) : List (String × String) :=
  if m.any (fun kv => kv.1 = k) then
    m.map (fun kv => if kv.1 = k then (k, v) else kv)
  else m ++ [(k, v)]

/-- One URL of the `scrape_markdown` loop: the strict attempt, then on
    blank content the relaxed retry; `Option.none` when the URL
    contributes nothing (exception or twice-blank content). `strict` and
    `relaxed` give the outcome of each `Firecrawl.ScrapeUrl` call for the
    sanitized request URL. -/
def scrapeOne (strict relaxed : String → Except PyExc Py) (u : String) : Option String :=
  match strict (sanitize_url u) with
  | Except.error _ => Option.none
  | Except.ok payload =>
    match extract_markdown payload with
    | some content =>
      if !(pyStripL content.data).isEmpty then some content
      else Option.none
    | Option.none =>
      match relaxed (sanitize_url u) with
      | Except.error _ => Option.none
      | Except.ok payload2 =>
        match extract_markdown payload2 with
        | some content2 =>
          if !(pyStripL content2.data).isEmpty then some content2
          else Option.none
        | Option.none => Option.none

/-- Loop of `scrape_markdown`: accumulate pages keyed by `pageKey`,
    returning as soon as `max_pages` entries are collected. -/
def scrapeLoop (strict relaxed : String → Except PyExc Py) (max_pages : Nat) :
    List String → List (String × String) → List (String × String)
  | [], results => results
  | u :: rest, results =>
    match scrapeOne strict relaxed u with
    | some content =>
      let results2 := dictSet results (pageKey u) content
      if max_pages ≤ results2.length then results2
      else scrapeLoop strict relaxed max_pages rest results2
    | Option.none => scrapeLoop strict relaxed max_pages rest results

/-- Source `FirecrawlTool.scrape_markdown`.  The per-URL remote outcomes
    are the oracles `strict`/`relaxed`; the tiny `CrawlWebsite` fallback
    block (reached only when every URL contributed nothing and
    `allow_crawl_fallback` holds) is abstracted by the oracle `crawlFb`,
    the mapping that block would collect from its four further remote
    calls — no claim below reaches it.  Log emission does not affect the
    returned mapping and is not modelled here (see `execute` for the
    logging model). -/
def scrape_markdown (strict relaxed : String → Except PyExc Py)
    (urls : List String) (max_pages : Nat) (allow_crawl_fallback : Bool)
    (crawlFb : List (String × String)) : List (String × String) :=
  let results := scrapeLoop strict relaxed max_pages urls []
  if !results.isEmpty || !allow_crawl_fallback then results
  else crawlFb

/-! ## utils/logging.py and tools/executor.py -/

/-- Source `LogEvent` (utils/logging.py); the run id is ambient and the
    free-form `extra` metadata carries no claim content. -/
structure LogEvent where
  step : String
  tool : String
  outcome : String
  duration_ms : Nat
deriving DecidableEq

/-- The shapes `ArcadeToolExecutor.execute` normalizes: an object exposing
    `.output.value`, a plain mapping, an object exposing `.result`, or any
    other object (for which `getattr(result, 'result', result)` is the
    object itself). -/
inductive ClientResult where
  | outputValue : Py → ClientResult
  | mapping : List (String × Py) → ClientResult
  | attrResult : Py → ClientResult
  | bare : Py → ClientResult

/-- The payload normalization of `ArcadeToolExecutor.execute`. -/
def normalizePayload : ClientResult → Py
  | ClientResult.outputValue v => v
  | ClientResult.mapping kvs => Py.dict kvs
  | ClientResult.attrResult v => v
  | ClientResult.bare v => v

/-- Events emitted by the `_Timer.__exit__` of `EventLogger.timed`: none on
    a clean exit, and one `error:<exceptionKind>` event whenever an
    exception passes through — regardless of whether `result(...)` already
    logged (the code does not track that). -/
def timedExitEvents (step tool : String) (exc : Option PyExc) (elapsed : Nat) :
    List LogEvent :=
  match exc with
  | Option.none => []
  | some e => [⟨step, tool, "error:" ++ e.kind, elapsed⟩]

/-- Source `ArcadeToolExecutor.execute`: run the remote call inside
    `logger.timed`; on success log `ok` via `t.result` and return the
    normalized payload; on failure log `error` via `t.result`, re-raise,
    and let the timer's `__exit__` log its own event.  `call` is the
    outcome of the underlying `client.tools.execute` call;
    `elapsedAtResult`/`elapsedAtExit` are the wall-clock readings at the
    two logging points.  Returns the propagated outcome and the emitted
    log events in order. -/
def execute (step tool : String) (call : Except PyExc ClientResult)
    (elapsedAtResult elapsedAtExit : Nat) : Except PyExc Py × List LogEvent :=
  match call with
  | Except.ok r =>
    (Except.ok (normalizePayload r),
     [⟨step, tool, "ok", elapsedAtResult⟩] ++
       timedExitEvents step tool Option.none elapsedAtExit)
  | Except.error e =>
    (Except.error e,
     [⟨step, tool, "error", elapsedAtResult⟩] ++
       timedExitEvents step tool (some e) elapsedAtExit)

/-! ## models/data_models.py and agents/web_researcher.py -/

/-- Source `CompanyInfo` (models/data_models.py): the dataclass declares
    exactly the two fields `mission` and `recent_news`. -/
structure CompanyInfo where
  mission : String
  recent_news : List String
deriving DecidableEq

/-- The field names of the `CompanyInfo` dataclass, as its generated
    `__init__` accepts them. -/
def companyInfoFields : List String :=
  ["mission", "recent_news"]

/-- The keyword-argument names `_analyze_company_data` passes to
    `CompanyInfo(...)` (agents/web_researcher.py, lines 184-191). -/
def analyzeCallKwargs : List String :=
  ["mission", "recent_news", "culture_values", "key_products",
   "recent_developments", "team_info"]

/-- A dataclass call succeeds only when every passed keyword is a declared
    field and every field is supplied; otherwise Python raises
    `TypeError`. -/
def companyInfoCallOk : Bool :=
  analyzeCallKwargs.all (fun k => companyInfoFields.contains k) &&
  companyInfoFields.all (fun k => analyzeCallKwargs.contains k)

/-- Source `WebResearch` (models/data_models.py). -/
structure WebResearch where
  company_domain : String
  company_name : String
  search_results : List (List (String × Py))
  website_content : List (String × String)
  structured_info : CompanyInfo

/-- Python `str(v)` for the payload scalars that can appear in the
    f-string of `_analyze_company_data`; the repr of containers is not
    reproduced (the only call site passes an empty result list, so no
    container reaches the f-string). -/
def pyToStr : Py → String
  | Py.str s => s
  | Py.int n => toString n
  | Py.none => "None"
  | Py.dict _ => "<dict>"
  | Py.list _ => "<list>"

/-- Python `m.get(k, '')` on a string-valued dict. -/
def dictGetS (m : List (String × String)) (k : String) : String :=
  match m.find? (fun kv => kv.1 = k) with
  | some kv => kv.2
  | Option.none => ""

/-- Source `WebResearcher._analyze_company_data`: build the news list from
    the first 10 search results, then construct `CompanyInfo` with the six
    keyword arguments of the source — which the two-field dataclass
    rejects with `TypeError`, modelled by the `companyInfoCallOk` guard. -/
def analyze_company_data (search_results : List (List (String × Py)))
    (website_content : List (String × String)) : Except String CompanyInfo :=
  let recent_news := (search_results.take 10).filterMap (fun r =>
    if pyTruthy (pyGet r "title") && pyTruthy (pyGet r "snippet") then
      some (pyToStr (pyGet r "title") ++ ": " ++ pyToStr (pyGet r "snippet"))
    else Option.none)
  let mission :=
    let a : String := ⟨(dictGetS website_content "about").data.take 500⟩
    if a.data.isEmpty then ⟨(dictGetS website_content "home").data.take 500⟩ else a
  if companyInfoCallOk then
    Except.ok { mission := mission, recent_news := recent_news }
  else
    Except.error "TypeError: __init__() got an unexpected keyword argument"

/-- Source `WebResearcher._domain_to_company_name`: drop `.com`, `.org`,
    `.net` and `www.`, replace separators by spaces, title-case. -/
def domain_to_company_name (domain : String) : String :=
  let name := strReplace (strReplace (strReplace domain ".com" "") ".org" "") ".net" ""
  let name := strReplace name "www." ""
  pyTitle (strReplace (strReplace name "-" " ") "_" " ")

/-- Source `WebResearcher.research_company`: search is disabled
    (`search_results = []`), the website is scraped (that step catches
    every per-URL exception, so its outcome is the mapping `scraped`),
    then `_analyze_company_data` runs and the `WebResearch` record is
    assembled.  Any exception escaping `_analyze_company_data`
    propagates. -/
def research_company (domain : String) (scraped : List (String × String)) :
    Except String WebResearch :=
  let search_results : List (List (String × Py)) := []
  match analyze_company_data search_results scraped with
  | Except.error e => Except.error e
  | Except.ok info =>
    Except.ok
      { company_domain := domain
        company_name := domain_to_company_name domain
        search_results := search_results
        website_content := scraped
        structured_info := info }

/-! ## agents/discovery.py -/

/-- Split a character list at the first occurrence of `sep`: the part
    before it, and `some` remainder when `sep` occurs. -/
def splitFirstAt (sep : Char) (l : List Char) : List Char × Option (List Char) :=
  let pre := l.takeWhile (fun c => c ≠ sep)
  match l.dropWhile (fun c => c ≠ sep) with
  | [] => (pre, Option.none)
  | _ :: t => (pre, some t)

/-- Python `s.split(sep)` for a one-character separator. -/
def splitOnChar (sep : Char) (l : List Char) : List (List Char) :=
  l.foldr
    (fun c acc =>
      if c = sep then [] :: acc
      else
        match acc with
        | [] => [[c]]
        | h :: t => (c :: h) :: t)
    [[]]

/-- Dot-segment resolution of `urllib.parse.urljoin`: `..` pops, `.` is
    skipped, and a trailing `.`/`..` re-appends an empty segment. -/
def resolveDotSegs (segs : List (List Char)) : List (List Char) :=
  let r := segs.foldl
    (fun acc seg =>
      if seg = ['.', '.'] then acc.dropLast
      else if seg = ['.'] then acc
      else acc ++ [seg])
    ([] : List (List Char))
  if segs.getLast? = some ['.'] || segs.getLast? = some ['.', '.'] then r ++ [[]]
  else r

/-- Source `urljoin(base_root + '/', u)` as `discover_urls` uses it: the
    base is `"https://" + site.strip('/') + "/"` and `u` begins with `/`
    but not `//`, so the join keeps the base's scheme and netloc and
    resolves the reference's dot segments. -/
def urljoinPathAbs (site u : String) : String :=
  let netloc := (stripSlashesL site.data).takeWhile (fun c => c ≠ '/' && c ≠ '?' && c ≠ '#')
  let (beforeFrag, frag) := splitFirstAt '#' u.data
  let (pathPart, query) := splitFirstAt '?' beforeFrag
  let resolved := List.intercalate ['/'] (resolveDotSegs (splitOnChar '/' pathPart))
  let path := if resolved.isEmpty then ['/'] else resolved
  ⟨"https://".data ++ netloc ++ path ++
    (match query with
     | some q => if q.isEmpty then [] else '?' :: q
     | Option.none => []) ++
    (match frag with
     | some f => if f.isEmpty then [] else '#' :: f
     | Option.none => [])⟩

/-- The deterministic fallback candidates of `discover_urls`
    (homepage, about, company, team, leadership, careers, jobs). -/
def commonsList (base : String) : List String :=
  [base, base ++ "/about", base ++ "/company", base ++ "/team",
   base ++ "/leadership", base ++ "/careers", base ++ "/jobs"]

/-- Source `DiscoveryPlanner._llm_select`: from the parsed ranking JSON
    (or `Option.none` for a call/parse failure, and any non-dict JSON)
    build the about/team/careers picks, defaulting each to `""` and
    accepting the alias keys `leadership` and `jobs` via Python `or`. -/
def llm_select (parsed : Option Py) : Py × Py × Py :=
  match parsed with
  | some (Py.dict d) =>
    (pyGetD d "about" (Py.str ""),
     pyOr (pyGetD d "team" (Py.str "")) (pyGetD d "leadership" (Py.str "")),
     pyOr (pyGetD d "careers" (Py.str "")) (pyGetD d "jobs" (Py.str "")))
  | _ => (Py.str "", Py.str "", Py.str "")

/-- Keep a value only when it is a nonempty string
    (Python `isinstance(p, str) and p`). -/
def truthyStr : Py → Option String
  | Py.str s => if s.data.isEmpty then Option.none else some s
  | _ => Option.none

/-- The `extract_urls` helper of `discover_urls`: from each search-result
    record take the first truthy of `link`/`url`/`href`; when it is a
    string, resolve a path-absolute reference against the site root and
    sanitize.  (`_web_search` guarantees every record is a dict.) -/
def extract_urls (site : String) (items : List (List (String × Py))) : List String :=
  items.filterMap (fun kvs =>
    match pyOr (pyGet kvs "link") (pyOr (pyGet kvs "url") (pyGet kvs "href")) with
    | Py.str u =>
      let abs := if strStartsWith u "/" && !strStartsWith u "//" then urljoinPathAbs site u else u
      some (sanitize_url abs)
    | _ => Option.none)

/-- Source `DiscoveryPlanner.discover_urls`.  `mapped` is the injected
    site-map prober's return value, `s1`/`s2` the search layer's record
    lists (in debug mode only one search is issued, so `s2` is unused
    there), `pick` the ranking selection.  The `last_search_results`
    reporting side channel does not affect the return value and is not
    modelled. -/
def discover_urls (debug : Bool) (domain : String) (mapped : List String)
    (s1 s2 : List (List (String × Py))) (pick : Py × Py × Py)
    (max_candidates : Nat) : List String :=
  if !is_safe_domain domain then []
  else
    let base := sanitize_url domain
    let site := strReplace (strReplace domain "https://" "") "http://" ""
    let candidates := mapped ++ extract_urls site s1 ++
      (if debug then [] else extract_urls site s2)
    let candidates := if candidates.isEmpty then commonsList base else candidates
    let unique := (dedupe candidates).take max_candidates
    let chosen := [pick.1, pick.2.1, pick.2.2].filterMap truthyStr
    let out := chosen.foldl
      (fun out u =>
        let u2 := if strStartsWith u "/" && !strStartsWith u "//" then urljoinPathAbs site u else u
        let u3 := sanitize_url u2
        if u3 ∈ out then out else out ++ [u3])
      ([] : List String)
    let out := if out.isEmpty then unique.take 3 else out
    out.take (if debug then 2 else 6)

/-- The `site` string of `discover_urls` (scheme prefixes replaced away). -/
def discoverSite (domain : String) : String :=
  strReplace (strReplace domain "https://" "") "http://" ""

/-- The candidate list of `discover_urls` after the deterministic
    fallback substitution. -/
def discoverCands (debug : Bool) (domain : String) (mapped : List String)
    (s1 s2 : List (List (String × Py))) : List String :=
  if (mapped ++ extract_urls (discoverSite domain) s1 ++
      (if debug then [] else extract_urls (discoverSite domain) s2)).isEmpty then
    commonsList (sanitize_url domain)
  else
    mapped ++ extract_urls (discoverSite domain) s1 ++
      (if debug then [] else extract_urls (discoverSite domain) s2)

/-- The ranking picks `discover_urls` keeps: nonempty strings among the
    about/team/careers selections. -/
def discoverChosen (pick : Py × Py × Py) : List String :=
  [pick.1, pick.2.1, pick.2.2].filterMap truthyStr

/-- One step of the chosen-URL accumulation loop of `discover_urls`. -/
def discoverStep (site : String) (out : List String) (u : String) : List String :=
  if sanitize_url (if strStartsWith u "/" && !strStartsWith u "//"
      then urljoinPathAbs site u else u) ∈ out then
    out
  else
    out ++ [sanitize_url (if strStartsWith u "/" && !strStartsWith u "//"
      then urljoinPathAbs site u else u)]

/-- Ten distinct URLs that share the final path segment `x`, hence one
    page key. -/
def sameKeyUrls : List String :=
  ["https://e.com/a0/x", "https://e.com/a1/x", "https://e.com/a2/x",
   "https://e.com/a3/x", "https://e.com/a4/x", "https://e.com/a5/x",
   "https://e.com/a6/x", "https://e.com/a7/x", "https://e.com/a8/x",
   "https://e.com/a9/x"]

/-! ## Basic evaluations of the embedded functions (sanity checks,
    mirroring the repository's own unit tests) -/

example : sanitize_url "example.com/about" = "https://example.com/about" := by decide
example : sanitize_url "http://example.com/about" = "https://example.com/about" := by decide
example : sanitize_url "" = "https:/" := by decide
example : sanitize_url "https:/" = "https://https:/" := by decide
example : is_safe_domain "example.com" = true := by decide
example : is_safe_domain "sub.example.org" = true := by decide
example : is_safe_domain "javascript:alert(1)" = false := by decide
example : is_safe_domain "exa mple.com" = false := by decide
example : is_safe_domain " example.com" = true := by decide
example : ensure_https "example.com" = "https://example.com" := by decide
example : ensure_https "http://example.com" = "https://example.com" := by decide
example : extract_markdown (Py.str "hello") = some "hello" := by decide
example : extract_markdown (Py.dict [("markdown", Py.str "md")]) = some "md" := by decide
example : extract_markdown (Py.dict [("data", Py.dict [("markdown", Py.str "md2")])]) = some "md2" := by
  decide
example : extract_markdown (Py.dict [("data", Py.list [Py.dict [("markdown", Py.str "md3")]])]) = some "md3" := by
  decide
example : extract_markdown (Py.dict [("content", Py.str "text")]) = some "text" := by decide
example : extract_markdown (Py.dict []) = Option.none := by decide
example : extract_markdown (Py.dict [("data", Py.dict [("text", Py.str "hi")])]) = Option.none := by
  decide
example :
    scrape_markdown (fun _ => Except.ok (Py.str "hello")) (fun _ => Except.ok Py.none)
      ["https://e.com/a", "https://e.com/b", "https://e.com/c"] 2 true [] =
      [("a", "hello"), ("b", "hello")] := by decide
example : domain_to_company_name "stripe.com" = "Stripe" := by decide
example : domain_to_company_name "acme.co.uk" = "Acme.Co.Uk" := by decide
example : domain_to_company_name "jobs.example.io" = "Jobs.Example.Io" := by decide
example :
    discover_urls false "acme.io" [] [] [] (llm_select Option.none) 15 =
      ["https://acme.io/", "https://acme.io//about", "https://acme.io//company"] := by decide

example :
    discover_urls true "acme.io" [] [] [] (llm_select Option.none) 15 =
      ["https://acme.io/", "https://acme.io//about"] := by decide

example :
    discover_urls true "example.com" ["https://example.com/about"]
      [[("title", Py.str "About"), ("link", Py.str "/team"), ("snippet", Py.str "")]] []
      (llm_select (some (Py.dict [("about", Py.str "/about"), ("team", Py.str "/team"),
                                  ("careers", Py.str "")]))) 15 =
      ["https://example.com/about", "https://example.com/team"] := by decide

/-! ## Helper lemmas: characters -/

theorem char_eq_iff_toNat {c d : Char} : c = d ↔ c.toNat = d.toNat := by
  constructor
  · intro h; rw [h]
  · intro h
    exact Char.eq_of_val_eq (UInt32.toNat.inj h)

theorem pyLowerChar_cases (c : Char) :
    pyLowerChar c = c ∨
      (65 ≤ c.toNat ∧ c.toNat ≤ 90 ∧ (pyLowerChar c).toNat = c.toNat + 32) := by
  unfold pyLowerChar
  split <;> first | exact Or.inl rfl | exact Or.inr (by decide)

theorem lower_domainChar {c : Char} (h : domainChar c = true) :
    domainChar (pyLowerChar c) = true := by
  rcases pyLowerChar_cases c with hc | ⟨h1, h2, h3⟩
  · rw [hc]; exact h
  · simp only [domainChar, asciiLetterB, asciiDigitB, Bool.or_eq_true, Bool.and_eq_true,
      decide_eq_true_eq, beq_iff_eq] at *
    omega

theorem lower_asciiLetterB {c : Char} (h : asciiLetterB c = true) :
    asciiLetterB (pyLowerChar c) = true := by
  rcases pyLowerChar_cases c with hc | ⟨h1, h2, h3⟩
  · rw [hc]; exact h
  · simp only [asciiLetterB, Bool.or_eq_true, Bool.and_eq_true, decide_eq_true_eq] at *
    omega

theorem domainChar_ranges {c : Char} (h : domainChar c = true) :
    (97 ≤ c.toNat ∧ c.toNat ≤ 122) ∨ (65 ≤ c.toNat ∧ c.toNat ≤ 90) ∨
    (48 ≤ c.toNat ∧ c.toNat ≤ 57) ∨ c.toNat = 46 ∨ c.toNat = 45 := by
  simpa only [domainChar, asciiLetterB, asciiDigitB, Bool.or_eq_true, Bool.and_eq_true,
    decide_eq_true_eq, beq_iff_eq, or_assoc] using h

theorem domainChar_not_space {c : Char} (h : domainChar c = true) :
    pyIsSpace c = false := by
  have hn := domainChar_ranges h
  simp only [pyIsSpace, Bool.or_eq_false_iff, beq_eq_false_iff_ne, ne_eq,
    Bool.and_eq_false_iff, decide_eq_false_iff_not]
  omega

theorem domainChar_not_bad {c : Char} (h : domainChar c = true) :
    badDomainChar c = false := by
  have hn := domainChar_ranges h
  simp only [badDomainChar, Bool.or_eq_false_iff, beq_eq_false_iff_ne, ne_eq]
  omega

theorem domainChar_ne_colon_slash {c : Char} (h : domainChar c = true) :
    c ≠ ':' ∧ c ≠ '/' := by
  have hn := domainChar_ranges h
  constructor <;> intro hc <;> subst hc <;> revert hn <;> decide

/-! ## Helper lemmas: lists and strings -/

theorem isPrefixOf_iff_exists {a b : List Char} :
    a.isPrefixOf b = true ↔ ∃ t, b = a ++ t := by
  induction a generalizing b with
  | nil => simp [List.isPrefixOf]
  | cons c t ih =>
    cases b with
    | nil => simp [List.isPrefixOf]
    | cons d u =>
      simp only [List.isPrefixOf, Bool.and_eq_true, beq_iff_eq, ih, List.cons_append,
        List.cons.injEq]
      constructor
      · rintro ⟨rfl, s, rfl⟩; exact ⟨s, rfl, rfl⟩
      · rintro ⟨s, rfl, rfl⟩; exact ⟨rfl, s, rfl⟩

theorem isPrefixOf_append_self (a b : List Char) : a.isPrefixOf (a ++ b) = true :=
  isPrefixOf_iff_exists.mpr ⟨b, rfl⟩

theorem dropWhile_eq_self_of {p : Char → Bool} {l : List Char}
    (h : ∀ c ∈ l, p c = false) : l.dropWhile p = l := by
  cases l with
  | nil => rfl
  | cons a t =>
    rw [List.dropWhile_cons, h a (List.mem_cons_self a t)]
    simp

theorem pyStrip_eq_self {l : List Char} (h : ∀ c ∈ l, pyIsSpace c = false) :
    pyStripL l = l := by
  unfold pyStripL
  rw [dropWhile_eq_self_of h]
  rw [dropWhile_eq_self_of (fun c hc => h c (List.mem_reverse.mp hc))]
  exact List.reverse_reverse l

theorem takeWhile_append_not {p : Char → Bool} {a : List Char} {c : Char} {t : List Char}
    (ha : ∀ x ∈ a, p x = true) (hc : p c = false) :
    (a ++ c :: t).takeWhile p = a := by
  induction a with
  | nil => simp [List.takeWhile_cons, hc]
  | cons x xs ih =>
    simp only [List.cons_append, List.takeWhile_cons, ha x (List.mem_cons_self x xs),
      if_true, List.cons.injEq, true_and]
    exact ih (fun y hy => ha y (List.mem_cons_of_mem x hy))

theorem dropWhile_append_not {p : Char → Bool} {a : List Char} {c : Char} {t : List Char}
    (ha : ∀ x ∈ a, p x = true) (hc : p c = false) :
    (a ++ c :: t).dropWhile p = c :: t := by
  induction a with
  | nil => simp [List.dropWhile_cons, hc]
  | cons x xs ih =>
    simp only [List.cons_append, List.dropWhile_cons, ha x (List.mem_cons_self x xs), if_true]
    exact ih (fun y hy => ha y (List.mem_cons_of_mem x hy))

theorem mem_dedupe_aux {l : List String} :
    ∀ {acc u}, u ∈ l.foldl (fun acc u => if u ∈ acc then acc else acc ++ [u]) acc →
      u ∈ acc ∨ u ∈ l := by
  induction l with
  | nil => intro acc u h; exact Or.inl h
  | cons a t ih =>
    intro acc u h
    simp only [List.foldl_cons] at h
    rcases ih h with hm | hm
    · by_cases hmem : a ∈ acc
      · rw [if_pos hmem] at hm; exact Or.inl hm
      · rw [if_neg hmem] at hm
        rcases List.mem_append.mp hm with hm2 | hm2
        · exact Or.inl hm2
        · simp only [List.mem_singleton] at hm2
          exact Or.inr (hm2 ▸ List.mem_cons_self a t)
    · exact Or.inr (List.mem_cons_of_mem a hm)

theorem mem_dedupe {l : List String} {u : String} (h : u ∈ dedupe l) : u ∈ l := by
  rcases mem_dedupe_aux h with hm | hm
  · exact absurd hm (List.not_mem_nil u)
  · exact hm

theorem nodup_dedupe_aux {l : List String} :
    ∀ {acc : List String}, acc.Nodup →
      (l.foldl (fun acc u => if u ∈ acc then acc else acc ++ [u]) acc).Nodup := by
  induction l with
  | nil => intro acc h; exact h
  | cons a t ih =>
    intro acc h
    simp only [List.foldl_cons]
    by_cases hmem : a ∈ acc
    · rw [if_pos hmem]; exact ih h
    · rw [if_neg hmem]
      refine ih (List.nodup_append.mpr ⟨h, List.nodup_singleton a, ?_⟩)
      intro x hx hxa
      simp only [List.mem_singleton] at hxa
      exact hmem (hxa ▸ hx)

theorem nodup_dedupe (l : List String) : (dedupe l).Nodup :=
  nodup_dedupe_aux List.nodup_nil

theorem dedupe_foldl_fresh {l : List String} (hl : l.Nodup) :
    ∀ {acc : List String}, (∀ u ∈ l, u ∉ acc) →
      l.foldl (fun acc u => if u ∈ acc then acc else acc ++ [u]) acc = acc ++ l := by
  induction l with
  | nil => intro acc _; simp
  | cons a t ih =>
    intro acc hdisj
    simp only [List.foldl_cons, if_neg (hdisj a (List.mem_cons_self a t))]
    rw [ih (List.Nodup.of_cons hl)
      (by
        intro u hu
        simp only [List.mem_append, List.mem_singleton, not_or]
        exact ⟨hdisj u (List.mem_cons_of_mem a hu),
          fun heq => (List.nodup_cons.mp hl).1 (heq ▸ hu)⟩)]
    simp

theorem dedupe_eq_self_of_nodup {l : List String} (h : l.Nodup) : dedupe l = l := by
  unfold dedupe
  simpa using @dedupe_foldl_fresh _ h [] (by simp)

theorem string_append_ne (base s : String) (h : s.data ≠ []) : base ≠ base ++ s := by
  intro heq
  have hd := congrArg String.data heq
  rw [String.data_append] at hd
  have hlen := congrArg List.length hd
  rw [List.length_append] at hlen
  exact h (List.length_eq_zero.mp (by omega))

theorem string_append_right_cancel {base s t : String}
    (h : base ++ s = base ++ t) : s = t := by
  have hd := congrArg String.data h
  rw [String.data_append, String.data_append] at hd
  have hst := List.append_cancel_left hd
  cases s; cases t
  exact congrArg String.mk hst

/-! ## Claim C1 — research_company never raises (agents/web_researcher.py) -/

/-- Claim C1, what the code actually does: `_analyze_company_data` passes
    the keyword arguments `culture_values`, `key_products`,
    `recent_developments` and `team_info` to the two-field `CompanyInfo`
    dataclass, so **every** `research_company` call raises `TypeError`
    before a `WebResearch` record can be assembled — for every domain and
    every outcome of the scraping step, including the all-fetches-fail
    outcome the claim describes as returning an empty-but-valid record. -/
theorem research_company_raises_typeerror (domain : String)
    (scraped : List (String × String)) :
    research_company domain scraped =
      Except.error "TypeError: __init__() got an unexpected keyword argument" := rfl

/-! ## Claim C3 — domain-to-company-name derivation -/

/-- Claim C3 evaluated on the code: `stripe.com` does map to `"Stripe"`,
    but `acme.co.uk` maps to `"Acme.Co.Uk"` (the code never strips the
    multi-label TLD `.co.uk`) and `jobs.example.io` maps to
    `"Jobs.Example.Io"` (the code only strips a literal `www.`, not other
    subdomain labels, and never strips `.io`).  The repository's own test
    `test_company_name_normalization.py` asserts `"Acme"` and
    `"Example"`, so the code contradicts its tests. -/
theorem domain_to_company_name_values :
    domain_to_company_name "stripe.com" = "Stripe" ∧
    domain_to_company_name "acme.co.uk" = "Acme.Co.Uk" ∧
    domain_to_company_name "jobs.example.io" = "Jobs.Example.Io" := by
  refine ⟨by decide, by decide, by decide⟩

/-! ## Claim C4 — executor logging and propagation -/

/-- Claim C4, what the code actually does on a failing call: the `except`
    branch of `ArcadeToolExecutor.execute` logs an event with outcome
    `error` via `t.result`, and then the timer's `__exit__` — whose
    comment says it should log only when no explicit result was logged,
    but which never checks — logs a second event with outcome
    `error:<exceptionKind>`.  The exception itself propagates unchanged.
    So a failed call records two `LogEvent`s, not exactly one. -/
theorem execute_error_two_events (step tool : String) (e : PyExc) (t1 t2 : Nat) :
    execute step tool (Except.error e) t1 t2 =
      (Except.error e,
       [⟨step, tool, "error", t1⟩, ⟨step, tool, "error:" ++ e.kind, t2⟩]) ∧
    (execute step tool (Except.error e) t1 t2).2.length = 2 := ⟨rfl, rfl⟩

/-! ## Claim C5 — is_safe_domain vs the hostname grammar -/

theorem asciiLetterB_domainChar {c : Char} (h : asciiLetterB c = true) :
    domainChar c = true := by
  simp [domainChar, h]

theorem grammarAt_parts {l : List Char} {i : Nat} (h : grammarAt l i = true) :
    (l.take i).isEmpty = false ∧ (l.take i).all domainChar = true ∧
    (l.drop i).head? = some '.' ∧ (l.drop (i + 1)).all asciiLetterB = true ∧
    2 ≤ (l.drop (i + 1)).length := by
  simp only [grammarAt, Bool.and_eq_true, Bool.not_eq_true', beq_iff_eq,
    decide_eq_true_eq] at h
  exact ⟨h.1.1.1.1, h.1.1.1.2, h.1.1.2, h.1.2, h.2⟩

theorem grammarMatch_exists {l : List Char} (h : grammarMatchL l = true) :
    ∃ i, i < l.length ∧ grammarAt l i = true := by
  unfold grammarMatchL at h
  obtain ⟨i, hi, hat⟩ := List.any_eq_true.mp h
  exact ⟨i, List.mem_range.mp hi, hat⟩

theorem grammar_all_domainChar {l : List Char} (h : grammarMatchL l = true) :
    ∀ c ∈ l, domainChar c = true := by
  obtain ⟨i, _, hat⟩ := grammarMatch_exists h
  obtain ⟨_, htake, hhead, hrest, _⟩ := grammarAt_parts hat
  intro c hc
  rw [← List.take_append_drop i l] at hc
  rcases List.mem_append.mp hc with hm | hm
  · exact List.all_eq_true.mp htake c hm
  · cases hdi : l.drop i with
    | nil => rw [hdi] at hhead; simp at hhead
    | cons a rest =>
      rw [hdi] at hhead hm
      simp only [List.head?_cons, Option.some.injEq] at hhead
      have hrest2 : rest = l.drop (i + 1) := by
        have : l.drop (i + 1) = (l.drop i).tail := by
          rw [← List.drop_one, List.drop_drop]
        rw [this, hdi]
        rfl
      rcases List.mem_cons.mp hm with rfl | hm2
      · rw [hhead]; decide
      · rw [hrest2] at hm2
        exact asciiLetterB_domainChar (List.all_eq_true.mp hrest c hm2)

theorem grammar_lower {l : List Char} (h : grammarMatchL l = true) :
    grammarMatchL (pyLowerL l) = true := by
  obtain ⟨i, hi, hat⟩ := grammarMatch_exists h
  obtain ⟨hne, htake, hhead, hrest, hlen⟩ := grammarAt_parts hat
  unfold grammarMatchL
  apply List.any_eq_true.mpr
  refine ⟨i, List.mem_range.mpr (by simpa [pyLowerL] using hi), ?_⟩
  unfold grammarAt
  simp only [pyLowerL, ← List.map_take, ← List.map_drop, Bool.and_eq_true,
    Bool.not_eq_true', beq_iff_eq, decide_eq_true_eq]
  refine ⟨⟨⟨⟨?_, ?_⟩, ?_⟩, ?_⟩, ?_⟩
  · cases htk : l.take i with
    | nil => rw [htk] at hne; simp at hne
    | cons a t => rfl
  · rw [List.all_map]
    apply List.all_eq_true.mpr
    intro c hc
    exact lower_domainChar (List.all_eq_true.mp htake c hc)
  · rw [List.head?_map, hhead]
    rfl
  · rw [List.all_map]
    apply List.all_eq_true.mpr
    intro c hc
    exact lower_asciiLetterB (List.all_eq_true.mp hrest c hc)
  · simpa using hlen

theorem lower_all_domainChar {l : List Char} (h : ∀ c ∈ l, domainChar c = true) :
    ∀ c ∈ pyLowerL l, domainChar c = true := by
  intro c hc
  obtain ⟨x, hx, rfl⟩ := List.mem_map.mp hc
  exact lower_domainChar (h x hx)

theorem scheme_has_colon {p : List Char} (hp : (':' : Char) ∈ p) {d : List Char}
    (h : ∀ c ∈ d, domainChar c = true) : p.isPrefixOf d = false := by
  apply Bool.eq_false_iff.mpr
  intro hpre
  obtain ⟨t, rfl⟩ := isPrefixOf_iff_exists.mp hpre
  exact absurd rfl (domainChar_ne_colon_slash (h _ (List.mem_append_left t hp))).1

theorem no_colon_no_scheme {d : List Char} (h : ∀ c ∈ d, domainChar c = true) :
    "http://".data.isPrefixOf d = false ∧ "https://".data.isPrefixOf d = false :=
  ⟨scheme_has_colon (by decide) h, scheme_has_colon (by decide) h⟩

/-- Claim C5, amended: every string matching the hostname grammar is
    accepted; and every string that — after Python's `strip()` and
    `lower()` — carries no `http(s)://` scheme and still contains a
    space, backslash or quote character is rejected.  (The original
    universally quantified "contains anywhere" version is refuted by
    `is_safe_domain_space_cex`: leading/trailing whitespace is stripped
    before the check, and for scheme-carrying strings only the netloc is
    checked.) -/
theorem is_safe_domain_grammar_sound :
    (∀ s : String, grammarMatchL s.data = true → is_safe_domain s = true) ∧
    (∀ s : String,
      "http://".data.isPrefixOf (pyLowerL (pyStripL s.data)) = false →
      "https://".data.isPrefixOf (pyLowerL (pyStripL s.data)) = false →
      (pyLowerL (pyStripL s.data)).any badDomainChar = true →
      is_safe_domain s = false) := by
  constructor
  · intro s h
    have hall := grammar_all_domainChar h
    have hstrip : pyStripL s.data = s.data :=
      pyStrip_eq_self (fun c hc => domainChar_not_space (hall c hc))
    have halld := lower_all_domainChar hall
    have hsch := no_colon_no_scheme halld
    have hbad : (pyLowerL s.data).any badDomainChar = false := by
      apply List.any_eq_false.mpr
      intro c hc
      simp only [Bool.not_eq_true]
      exact domainChar_not_bad (halld c hc)
    have hg : grammarMatchL (pyLowerL s.data) = true := grammar_lower h
    unfold is_safe_domain is_safe_domainL strStartsWith
    simp only [hstrip]
    simp [hsch.1, hsch.2, hg, hbad]
  · intro s h1 h2 hbad
    unfold is_safe_domain is_safe_domainL strStartsWith
    simp [h1, h2, hbad]

/-- Counterexample to claim C5 as stated: `" example.com"` contains a
    space, yet `is_safe_domain` accepts it (`strip()` removes the space
    before the grammar and character checks). -/
theorem is_safe_domain_space_cex :
    is_safe_domain " example.com" = true ∧ (' ' ∈ " example.com".data) :=
  ⟨by decide, by decide⟩

theorem is_safe_domain_grammar_sound_witness :
    is_safe_domain "example.com" = true ∧ is_safe_domain "exa mple.com" = false :=
  ⟨is_safe_domain_grammar_sound.1 "example.com" (by decide),
   is_safe_domain_grammar_sound.2 "exa mple.com" (by decide) (by decide) (by decide)⟩

/-! ## Claim C7 — content extraction priority -/

/-- Claim C7, amended: the extraction priority as the code implements it.
    In order: a bare string, if non-blank; a non-blank top-level
    `markdown`; a non-blank `markdown` under a dict-valued `data`; the
    first dict item of a list-valued `data` with a non-blank `markdown`;
    else the first truthy of top-level `content`, `content` under a
    dict-valued `data`, and top-level `text` — returned only when it is a
    non-blank string (a `text` field under `data` is never consulted);
    any other payload yields the no-content signal. -/
theorem extract_markdown_priority :
    (∀ s : String, (pyStripL s.data).isEmpty = false →
        extract_markdown (Py.str s) = some s) ∧
    (∀ kvs md, strOk (pyGet kvs "markdown") = some md →
        extract_markdown (Py.dict kvs) = some md) ∧
    (∀ kvs dd md, strOk (pyGet kvs "markdown") = Option.none →
        pyGet kvs "data" = Py.dict dd →
        strOk (pyGet dd "markdown") = some md →
        extract_markdown (Py.dict kvs) = some md) ∧
    (∀ kvs items md, strOk (pyGet kvs "markdown") = Option.none →
        pyGet kvs "data" = Py.list items →
        items.findSome? (fun it =>
          match it with
          | Py.dict ikvs => strOk (pyGet ikvs "markdown")
          | _ => Option.none) = some md →
        extract_markdown (Py.dict kvs) = some md) ∧
    (∀ kvs, strOk (pyGet kvs "markdown") = Option.none →
        (match pyGet kvs "data" with
         | Py.dict dd => strOk (pyGet dd "markdown")
         | _ => Option.none) = Option.none →
        (match pyGet kvs "data" with
         | Py.list items => items.findSome? (fun it =>
             match it with
             | Py.dict ikvs => strOk (pyGet ikvs "markdown")
             | _ => Option.none)
         | _ => Option.none) = Option.none →
        extract_markdown (Py.dict kvs) =
          strOk (pyOr (pyGet kvs "content")
                 (pyOr (match pyGet kvs "data" with
                        | Py.dict dd => pyGet dd "content"
                        | _ => Py.none)
                       (pyGet kvs "text")))) ∧
    (extract_markdown Py.none = Option.none ∧
     (∀ n, extract_markdown (Py.int n) = Option.none) ∧
     (∀ items, extract_markdown (Py.list items) = Option.none)) := by
  refine ⟨?_, ?_, ?_, ?_, ?_, rfl, fun n => rfl, fun items => rfl⟩
  · intro s h
    simp [extract_markdown, h]
  · intro kvs md h
    simp [extract_markdown, h]
  · intro kvs dd md h1 h2 h3
    simp [extract_markdown, h1, h2, h3]
  · intro kvs items md h1 h2 h3
    simp [extract_markdown, h1, h2, h3]
  · intro kvs h1 h2 h3
    simp only [extract_markdown, h1, h2, h3]

/-- Counterexample to claim C7 as stated: the payload whose only textual
    field is `text` nested under `data` yields the no-content signal, not
    that field — the code never consults `data["text"]`. -/
theorem extract_markdown_data_text_cex :
    extract_markdown (Py.dict [("data", Py.dict [("text", Py.str "hi")])]) =
      Option.none := by decide

theorem extract_markdown_priority_witness :
    extract_markdown (Py.str "hello") = some "hello" ∧
    extract_markdown (Py.dict [("data", Py.dict [("markdown", Py.str "md2")])]) =
      some "md2" ∧
    extract_markdown (Py.dict [("content", Py.str "text")]) = some "text" :=
  ⟨extract_markdown_priority.1 "hello" (by decide),
   extract_markdown_priority.2.2.1 [("data", Py.dict [("markdown", Py.str "md2")])]
     [("markdown", Py.str "md2")] "md2" rfl rfl rfl,
   (extract_markdown_priority.2.2.2.2.1 [("content", Py.str "text")]
     rfl rfl rfl).trans rfl⟩

/-! ## Claim C9 — scrape batching respects max_pages -/

/-- Counterexample to claim C9 as stated: ten distinct URLs, `max_pages =
    2`, every URL yields non-empty content — yet the result has one
    entry, because all ten URLs share the page key `x` and the mapping
    is keyed by final path segment. -/
theorem scrape_markdown_same_key_cex :
    sameKeyUrls.length = 10 ∧
    (scrape_markdown (fun _ => Except.ok (Py.str "hello"))
      (fun _ => Except.ok Py.none) sameKeyUrls 2 true []).length = 1 :=
  ⟨rfl, by decide⟩

/-- Claim C9, amended: with ten URLs whose derived page keys are pairwise
    distinct, `max_pages = 2`, and every URL yielding non-empty extracted
    content, `scrape_markdown` returns exactly 2 entries (it stops as
    soon as the second distinct page key is recorded). -/
theorem scrape_markdown_caps_two (strict relaxed : String → Except PyExc Py)
    (urls : List String)
    (hlen : urls.length = 10)
    (hok : ∀ u ∈ urls, scrapeOne strict relaxed u ≠ Option.none)
    (hkeys : (urls.map pageKey).Nodup) :
    (scrape_markdown strict relaxed urls 2 true []).length = 2 := by
  match urls, hlen with
  | u1 :: u2 :: rest, _ =>
    obtain ⟨c1, hc1⟩ := Option.ne_none_iff_exists'.mp
      (hok u1 (List.mem_cons_self u1 _))
    obtain ⟨c2, hc2⟩ := Option.ne_none_iff_exists'.mp
      (hok u2 (List.mem_cons_of_mem u1 (List.mem_cons_self u2 _)))
    have hk12 : pageKey u1 ≠ pageKey u2 := by
      simp only [List.map_cons, List.nodup_cons, List.mem_cons] at hkeys
      exact fun heq => hkeys.1 (Or.inl heq)
    have e1 : scrapeLoop strict relaxed 2 (u1 :: u2 :: rest) [] =
        scrapeLoop strict relaxed 2 (u2 :: rest) [(pageKey u1, c1)] := by
      rw [scrapeLoop, hc1]
      simp [dictSet]
    have e2 : scrapeLoop strict relaxed 2 (u2 :: rest) [(pageKey u1, c1)] =
        [(pageKey u1, c1), (pageKey u2, c2)] := by
      rw [scrapeLoop, hc2]
      simp [dictSet, hk12]
    simp only [scrape_markdown, e1, e2]
    simp

theorem scrape_markdown_caps_two_witness :
    (scrape_markdown (fun _ => Except.ok (Py.str "hello"))
      (fun _ => Except.ok Py.none)
      ["https://e.com/p0", "https://e.com/p1", "https://e.com/p2",
       "https://e.com/p3", "https://e.com/p4", "https://e.com/p5",
       "https://e.com/p6", "https://e.com/p7", "https://e.com/p8",
       "https://e.com/p9"] 2 true []).length = 2 :=
  scrape_markdown_caps_two _ _ _ rfl (by decide) (by decide)

/-! ## Claim C8 — find_candidate_urls -/

theorem foldl_dedupe_extends (b : List String) :
    ∀ acc : List String,
      ∃ t, b.foldl (fun acc u => if u ∈ acc then acc else acc ++ [u]) acc = acc ++ t := by
  induction b with
  | nil => intro acc; exact ⟨[], by simp⟩
  | cons u bs ih =>
    intro acc
    simp only [List.foldl_cons]
    by_cases hmem : u ∈ acc
    · rw [if_pos hmem]; exact ih acc
    · rw [if_neg hmem]
      obtain ⟨t, ht⟩ := ih (acc ++ [u])
      exact ⟨[u] ++ t, by rw [ht, List.append_assoc]⟩

theorem dedupe_append_of_nodup {a : List String} (b : List String) (ha : a.Nodup) :
    ∃ t, dedupe (a ++ b) = a ++ t := by
  unfold dedupe
  rw [List.foldl_append]
  have h1 : a.foldl (fun acc u => if u ∈ acc then acc else acc ++ [u]) [] = a := by
    simpa using @dedupe_foldl_fresh _ ha [] (by simp)
  rw [h1]
  exact foldl_dedupe_extends b a

theorem seedUrls_eq (domain : String) :
    seedUrls domain =
      ensure_https domain ::
        KEY_PAGES.map (fun p => (ensure_https domain ++ "/") ++ p) := rfl

theorem seedUrls_nodup (domain : String) : (seedUrls domain).Nodup := by
  rw [seedUrls_eq]
  apply List.nodup_cons.mpr
  constructor
  · intro hmem
    obtain ⟨p, hp, heq⟩ := List.mem_map.mp hmem
    have hpe : p.data ≠ [] := by
      have hall : ∀ q ∈ KEY_PAGES, q.data ≠ [] := by decide
      exact hall p hp
    apply string_append_ne (ensure_https domain) ("/" ++ p)
      (by cases hpd : p.data <;> simp [String.data_append])
    rw [← String.append_assoc]
    exact heq.symm
  · refine List.Nodup.map ?_ (by decide)
    intro p q hpq
    exact string_append_right_cancel hpq

theorem seedUrls_length (domain : String) : (seedUrls domain).length = 13 := by
  simp [seedUrls, KEY_PAGES]

/-- Claim C8: `find_candidate_urls` fails with the invalid-domain error
    exactly when the domain is unsafe; for a safe domain — whatever the
    site-map call does, including raising — it returns the first 8 seed
    URLs (the homepage plus the first seven keyword paths): a non-empty,
    duplicate-free list of at most 8 URLs in first-seen order headed by
    the deterministic seed list.  (The seed list already has 13 distinct
    entries, so merged map links never survive the cap.) -/
theorem find_candidate_urls_spec (domain : String) (mapResult : Except PyExc Py) :
    (find_candidate_urls domain mapResult = Except.error "Invalid or unsafe domain" ↔
      is_safe_domain domain = false) ∧
    (is_safe_domain domain = true →
      find_candidate_urls domain mapResult = Except.ok ((seedUrls domain).take 8) ∧
      (seedUrls domain).take 8 ≠ [] ∧
      ((seedUrls domain).take 8).Nodup ∧
      ((seedUrls domain).take 8).length ≤ 8) := by
  have hok : is_safe_domain domain = true →
      find_candidate_urls domain mapResult = Except.ok ((seedUrls domain).take 8) := by
    intro hsafe
    unfold find_candidate_urls
    rw [hsafe]
    simp only [Bool.not_true, Bool.false_eq_true, if_false]
    obtain ⟨t, ht⟩ := dedupe_append_of_nodup
      (b := match mapResult with
            | Except.ok payload => mapLinks payload
            | Except.error _ => [])
      (seedUrls_nodup domain)
    rw [ht, List.take_append_of_le_length (by rw [seedUrls_length]; omega)]
  constructor
  · cases hsafe : is_safe_domain domain
    · simp only [iff_true]
      unfold find_candidate_urls
      rw [hsafe]
      rfl
    · simp only [Bool.true_eq_false, iff_false]
      rw [hok hsafe]
      simp
  · intro hsafe
    refine ⟨hok hsafe, ?_, ?_, ?_⟩
    · have : ((seedUrls domain).take 8).length = 8 := by
        rw [List.length_take, seedUrls_length]
        decide
      intro hnil
      rw [hnil] at this
      simp at this
    · exact (seedUrls_nodup domain).sublist (List.take_sublist 8 _)
    · rw [List.length_take]
      omega

theorem find_candidate_urls_spec_witness :
    find_candidate_urls "acme.io" (Except.error ⟨"RequestError", "boom"⟩) =
      Except.ok ((seedUrls "acme.io").take 8) ∧
    ((seedUrls "acme.io").take 8).Nodup :=
  ⟨((find_candidate_urls_spec "acme.io" (Except.error ⟨"RequestError", "boom"⟩)).2
      (by decide)).1,
   ((find_candidate_urls_spec "acme.io" (Except.error ⟨"RequestError", "boom"⟩)).2
      (by decide)).2.2.1⟩

/-! ## Claim C2 — deterministic fallback in discover_urls -/

theorem commonsList_eq (base : String) :
    commonsList base =
      base :: ["/about", "/company", "/team", "/leadership", "/careers", "/jobs"].map
        (fun s => base ++ s) := rfl

theorem commonsList_nodup (base : String) : (commonsList base).Nodup := by
  rw [commonsList_eq]
  apply List.nodup_cons.mpr
  constructor
  · intro hmem
    obtain ⟨s, hs, heq⟩ := List.mem_map.mp hmem
    have hse : s.data ≠ [] := by
      have hall : ∀ q ∈ ["/about", "/company", "/team", "/leadership", "/careers", "/jobs"],
          String.data q ≠ [] := by decide
      exact hall s hs
    exact string_append_ne base s hse heq.symm
  · refine List.Nodup.map ?_ (by decide)
    intro p q hpq
    exact string_append_right_cancel hpq

theorem commonsList_length (base : String) : (commonsList base).length = 7 := rfl

/-- Claim C2: with the site-map prober and both searches contributing
    nothing and the ranking step yielding the empty selection,
    `discover_urls` substitutes the deterministic 7-URL fallback list
    (homepage, about, company, team, leadership, careers, jobs built on
    the sanitized domain) and returns its first 3 entries in order in
    full mode — its first 2 in debug mode. -/
theorem discover_urls_fallback_first3 (domain : String) (debug : Bool)
    (hsafe : is_safe_domain domain = true) :
    discover_urls debug domain [] [] [] (llm_select Option.none) 15 =
      (commonsList (sanitize_url domain)).take (if debug then 2 else 3) := by
  unfold discover_urls
  rw [hsafe]
  have hded : dedupe (commonsList (sanitize_url domain)) =
      commonsList (sanitize_url domain) :=
    dedupe_eq_self_of_nodup (commonsList_nodup _)
  have htake : (commonsList (sanitize_url domain)).take 15 =
      commonsList (sanitize_url domain) :=
    List.take_of_length_le (by rw [commonsList_length]; omega)
  cases debug <;>
    simp [extract_urls, llm_select, truthyStr, hded, htake, List.take_take]

theorem discover_urls_fallback_first3_witness :
    discover_urls false "acme.io" [] [] [] (llm_select Option.none) 15 =
      ["https://acme.io/", "https://acme.io//about", "https://acme.io//company"] :=
  (discover_urls_fallback_first3 "acme.io" false (by decide)).trans (by decide)

/-! ## Claim C6 — support lemmas on stripping and parsing -/

theorem getLast?_mem_of {l : List Char} {a : Char} (h : l.getLast? = some a) : a ∈ l := by
  obtain ⟨hne, rfl⟩ := List.mem_getLast?_eq_getLast (Option.mem_def.mpr h)
  exact List.getLast_mem hne

theorem dropWhile_eq_self_of_headq {p : Char → Bool} {l : List Char}
    (h : ∀ c, l.head? = some c → p c = false) : l.dropWhile p = l := by
  cases l with
  | nil => rfl
  | cons a t =>
    rw [List.dropWhile_cons, h a rfl]
    simp

theorem head?_dropWhile_false {p : Char → Bool} {v : List Char} {c : Char}
    (h : (v.dropWhile p).head? = some c) : p c = false := by
  induction v with
  | nil => simp [List.dropWhile_nil] at h
  | cons a t ih =>
    rw [List.dropWhile_cons] at h
    by_cases hpa : p a = true
    · rw [if_pos hpa] at h; exact ih h
    · rw [if_neg hpa] at h
      simp only [List.head?_cons, Option.some.injEq] at h
      rw [← h]
      exact Bool.eq_false_iff.mpr hpa

theorem getLast?_dropWhile {p : Char → Bool} {v : List Char}
    (h : v.dropWhile p ≠ []) : (v.dropWhile p).getLast? = v.getLast? := by
  induction v with
  | nil => rfl
  | cons a t ih =>
    rw [List.dropWhile_cons]
    rw [List.dropWhile_cons] at h
    by_cases hpa : p a = true
    · rw [if_pos hpa] at h ⊢
      rw [ih h]
      have ht : t ≠ [] := by
        intro hnil
        rw [hnil] at h
        exact h rfl
      cases t with
      | nil => exact absurd rfl ht
      | cons b u => rfl
    · rw [if_neg hpa]

theorem pyStrip_head? {l : List Char} {c : Char}
    (h : (pyStripL l).head? = some c) : pyIsSpace c = false := by
  unfold pyStripL at h
  rw [List.head?_reverse] at h
  have h2 := getLast?_dropWhile (v := (l.dropWhile pyIsSpace).reverse)
    (by
      intro hnil
      rw [hnil] at h
      simp at h)
  rw [h2, List.getLast?_reverse] at h
  exact head?_dropWhile_false h

theorem pyStrip_getLast? {l : List Char} {c : Char}
    (h : (pyStripL l).getLast? = some c) : pyIsSpace c = false := by
  unfold pyStripL at h
  rw [List.getLast?_reverse] at h
  exact head?_dropWhile_false h

theorem pyStrip_of_ends {s : List Char}
    (hhead : ∀ c, s.head? = some c → pyIsSpace c = false)
    (hlast : ∀ c, s.getLast? = some c → pyIsSpace c = false) :
    pyStripL s = s := by
  unfold pyStripL
  rw [dropWhile_eq_self_of_headq hhead]
  rw [dropWhile_eq_self_of_headq (fun c hc => hlast c (by rwa [List.head?_reverse] at hc))]
  exact List.reverse_reverse s

theorem https_not_http {b : List Char} :
    "http://".data.isPrefixOf ("https://".data ++ b) = false := by
  apply Bool.eq_false_iff.mpr
  intro hpre
  obtain ⟨t, ht⟩ := isPrefixOf_iff_exists.mp hpre
  have h8 : "https://".data = ['h', 't', 't', 'p', 's', ':', '/', '/'] := rfl
  have h7 : "http://".data = ['h', 't', 't', 'p', ':', '/', '/'] := rfl
  rw [h8, h7] at ht
  simp at ht

theorem ensureHttps_body {l : List Char} (hne : pyStripL l ≠ []) :
    ∃ b, ensureHttpsL l = "https://".data ++ b := by
  unfold ensureHttpsL
  rw [if_neg (by simpa using hne)]
  by_cases h1 : "http://".data.isPrefixOf (pyStripL l) = true
  · rw [if_pos h1]; exact ⟨(pyStripL l).drop 7, rfl⟩
  · rw [if_neg h1]
    by_cases h2 : "https://".data.isPrefixOf (pyStripL l) = true
    · rw [h2]
      simp only [Bool.not_true, Bool.false_eq_true, if_false]
      obtain ⟨t, ht⟩ := isPrefixOf_iff_exists.mp h2
      exact ⟨t, ht⟩
    · rw [Bool.eq_false_iff.mpr h2]
      simp only [Bool.not_false, if_true]
      exact ⟨pyStripL l, rfl⟩

theorem ensureHttps_strip {l : List Char} (hne : pyStripL l ≠ []) :
    pyStripL (ensureHttpsL l) = ensureHttpsL l := by
  have hhead : ∀ c, (ensureHttpsL l).head? = some c → pyIsSpace c = false := by
    obtain ⟨b, hb⟩ := ensureHttps_body hne
    rw [hb]
    intro c hc
    simp only [List.cons_append, List.head?_cons, Option.some.injEq] at hc
    rw [← hc]
    decide
  have hlast : ∀ c, (ensureHttpsL l).getLast? = some c → pyIsSpace c = false := by
    unfold ensureHttpsL
    rw [if_neg (by simpa using hne)]
    by_cases h1 : "http://".data.isPrefixOf (pyStripL l) = true
    · rw [if_pos h1]
      obtain ⟨t, ht⟩ := isPrefixOf_iff_exists.mp h1
      rw [ht]
      have hdrop : ("http://".data ++ t).drop 7 = t := List.drop_left "http://".data t
      rw [hdrop]
      cases ht2 : t with
      | nil =>
        intro c hc
        simp only [List.append_nil] at hc
        have hval : "https://".data.getLast? = some '/' := rfl
        rw [hval] at hc
        rw [(Option.some_inj.mp hc).symm]
        decide
      | cons d u =>
        intro c hc
        rw [List.getLast?_append_of_ne_nil "https://".data (by simp)] at hc
        apply pyStrip_getLast? (l := l)
        rw [ht, ht2]
        rw [List.getLast?_append_of_ne_nil "http://".data (by simp)]
        exact hc
    · rw [if_neg h1]
      by_cases h2 : "https://".data.isPrefixOf (pyStripL l) = true
      · rw [h2]
        simp only [Bool.not_true, Bool.false_eq_true, if_false]
        intro c hc
        exact pyStrip_getLast? hc
      · rw [Bool.eq_false_iff.mpr h2]
        simp only [Bool.not_false, if_true]
        intro c hc
        rw [List.getLast?_append_of_ne_nil "https://".data hne] at hc
        exact pyStrip_getLast? hc
  exact pyStrip_of_ends hhead hlast

theorem pyLowerChar_of_notUpper {c : Char} (h : ¬(65 ≤ c.toNat ∧ c.toNat ≤ 90)) :
    pyLowerChar c = c := by
  unfold pyLowerChar
  split <;> first | rfl | exact absurd (by decide) h

theorem pyLowerChar_idem (c : Char) :
    pyLowerChar (pyLowerChar c) = pyLowerChar c := by
  rcases pyLowerChar_cases c with hc | ⟨_, _, h3⟩
  · rw [hc, hc]
  · exact pyLowerChar_of_notUpper (by omega)

theorem lower_netChar {c : Char}
    (h : (c ≠ '/' && c ≠ '?' && c ≠ '#') = true) :
    (pyLowerChar c ≠ '/' && pyLowerChar c ≠ '?' && pyLowerChar c ≠ '#') = true := by
  rcases pyLowerChar_cases c with hc | ⟨h1, h2, h3⟩
  · rw [hc]; exact h
  · simp only [Bool.and_eq_true, decide_eq_true_eq, ne_eq]
    have hlow : 97 ≤ (pyLowerChar c).toNat ∧ (pyLowerChar c).toNat ≤ 122 := by omega
    refine ⟨⟨?_, ?_⟩, ?_⟩ <;> intro heq <;> rw [char_eq_iff_toNat] at heq <;>
      rw [heq] at hlow <;> revert hlow <;> decide

theorem safePathChar_ranges {c : Char} (h : safePathChar c = true) :
    (97 ≤ c.toNat ∧ c.toNat ≤ 122) ∨ (65 ≤ c.toNat ∧ c.toNat ≤ 90) ∨
    (48 ≤ c.toNat ∧ c.toNat ≤ 57) ∨ c.toNat = 95 ∨ c.toNat = 46 ∨
    c.toNat = 47 ∨ c.toNat = 45 := by
  simpa only [safePathChar, asciiLetterB, asciiDigitB, Bool.or_eq_true, Bool.and_eq_true,
    decide_eq_true_eq, beq_iff_eq, or_assoc] using h

theorem safePathChar_not_space {c : Char} (h : safePathChar c = true) :
    pyIsSpace c = false := by
  have hn := safePathChar_ranges h
  simp only [pyIsSpace, Bool.or_eq_false_iff, beq_eq_false_iff_ne, ne_eq,
    Bool.and_eq_false_iff, decide_eq_false_iff_not]
  omega

theorem safePathChar_pq {c : Char} (h : safePathChar c = true) :
    (c ≠ '?' && c ≠ '#') = true := by
  have hn := safePathChar_ranges h
  simp only [Bool.and_eq_true, decide_eq_true_eq, ne_eq]
  constructor <;> intro heq <;> rw [char_eq_iff_toNat] at heq <;>
    rw [heq] at hn <;> revert hn <;> decide

theorem pyLowerChar_eq_iff {c d : Char} (hd1 : ¬(97 ≤ d.toNat ∧ d.toNat ≤ 122))
    (hd2 : ¬(65 ≤ d.toNat ∧ d.toNat ≤ 90)) :
    pyLowerChar c = d ↔ c = d := by
  constructor
  · intro h
    rcases pyLowerChar_cases c with hc | ⟨_, _, h3⟩
    · rwa [hc] at h
    · rw [char_eq_iff_toNat] at h
      exact absurd (by omega : 97 ≤ d.toNat ∧ d.toNat ≤ 122) hd1
  · intro h
    rw [h]
    exact pyLowerChar_of_notUpper hd2

theorem takeWhile_eq_self_of {p : Char → Bool} {l : List Char}
    (h : ∀ c ∈ l, p c = true) : l.takeWhile p = l := by
  induction l with
  | nil => rfl
  | cons a t ih =>
    rw [List.takeWhile_cons, h a (List.mem_cons_self a t), if_pos rfl]
    rw [ih (fun c hc => h c (List.mem_cons_of_mem a hc))]

theorem mem_lower_iff {nl : List Char} {d : Char}
    (hd1 : ¬(97 ≤ d.toNat ∧ d.toNat ≤ 122)) (hd2 : ¬(65 ≤ d.toNat ∧ d.toNat ≤ 90)) :
    (d ∈ pyLowerL nl) ↔ (d ∈ nl) := by
  unfold pyLowerL
  constructor
  · intro h
    obtain ⟨x, hx, heq⟩ := List.mem_map.mp h
    rwa [← (pyLowerChar_eq_iff hd1 hd2).mp heq]
  · intro h
    exact List.mem_map.mpr ⟨d, h, pyLowerChar_of_notUpper hd2⟩

theorem urlunparse_form {nl : List Char} (hnl : nl ≠ []) (spt : List Char) :
    urlunparseHttps nl ('/' :: spt) = "https://".data ++ nl ++ ('/' :: spt) := by
  cases nl with
  | nil => exact absurd rfl hnl
  | cons a t =>
    simp [urlunparseHttps, List.append_assoc]

theorem urlparsePair_append (b : List Char) :
    urlparsePair ("https://".data ++ b) =
      (if ((('[' ∈ b.takeWhile (fun c => c ≠ '/' && c ≠ '?' && c ≠ '#')) : Bool) !=
           ((']' ∈ b.takeWhile (fun c => c ≠ '/' && c ≠ '?' && c ≠ '#')) : Bool)) = true
       then Option.none
       else some (b.takeWhile (fun c => c ≠ '/' && c ≠ '?' && c ≠ '#'),
         (b.dropWhile (fun c => c ≠ '/' && c ≠ '?' && c ≠ '#')).takeWhile
           (fun c => c ≠ '?' && c ≠ '#'))) := by
  unfold urlparsePair
  rw [if_pos (isPrefixOf_append_self _ _)]
  have hdrop : ("https://".data ++ b).drop 8 = b := by
    simpa using List.drop_left "https://".data b
  rw [hdrop]

/-- A canonical sanitized URL — `https://` plus a nonempty, delimiter-free,
    already-lowercase, bracket-balanced netloc plus a slash-led all-safe
    path — is a fixed point of `sanitizeL`. -/
theorem sanitizeL_canonical {nl spt : List Char}
    (hnl : nl ≠ [])
    (hnlnet : ∀ c ∈ nl, (c ≠ '/' && c ≠ '?' && c ≠ '#') = true)
    (hnllower : pyLowerL nl = nl)
    (hbr : ((('[' ∈ nl) : Bool) != ((']' ∈ nl) : Bool)) = false)
    (hspsafe : ∀ c ∈ ('/' :: spt), safePathChar c = true) :
    sanitizeL ("https://".data ++ nl ++ ('/' :: spt)) =
      "https://".data ++ nl ++ ('/' :: spt) := by
  have hassoc : "https://".data ++ nl ++ ('/' :: spt) =
      "https://".data ++ (nl ++ ('/' :: spt)) := List.append_assoc _ _ _
  -- the string strips to itself
  have hstrip : pyStripL ("https://".data ++ nl ++ ('/' :: spt)) =
      "https://".data ++ nl ++ ('/' :: spt) := by
    apply pyStrip_of_ends
    · intro c hc
      rw [hassoc] at hc
      simp only [List.cons_append, List.head?_cons, Option.some.injEq] at hc
      rw [← hc]; decide
    · intro c hc
      rw [List.getLast?_append_of_ne_nil ("https://".data ++ nl) (by simp)] at hc
      exact safePathChar_not_space (hspsafe c (getLast?_mem_of hc))
  -- ensure_https leaves it unchanged
  have hee : ensureHttpsL ("https://".data ++ nl ++ ('/' :: spt)) =
      "https://".data ++ nl ++ ('/' :: spt) := by
    unfold ensureHttpsL
    rw [hstrip]
    rw [if_neg (by rw [hassoc]; simp)]
    rw [if_neg (by rw [hassoc, https_not_http]; simp)]
    rw [hassoc, isPrefixOf_append_self]
    simp
  -- parsing recovers netloc and path
  have hdrop : ("https://".data ++ (nl ++ ('/' :: spt))).drop 8 = nl ++ ('/' :: spt) := by
    have := List.drop_left "https://".data (nl ++ ('/' :: spt))
    simpa using this
  have htw : (nl ++ ('/' :: spt)).takeWhile
      (fun c => c ≠ '/' && c ≠ '?' && c ≠ '#') = nl :=
    takeWhile_append_not hnlnet (by decide)
  have hdw : (nl ++ ('/' :: spt)).dropWhile
      (fun c => c ≠ '/' && c ≠ '?' && c ≠ '#') = '/' :: spt :=
    dropWhile_append_not hnlnet (by decide)
  have hpq : ('/' :: spt).takeWhile (fun c => c ≠ '?' && c ≠ '#') = '/' :: spt :=
    takeWhile_eq_self_of (fun c hc => safePathChar_pq (hspsafe c hc))
  have hfil : ('/' :: spt).filter safePathChar = '/' :: spt :=
    List.filter_eq_self.mpr hspsafe
  unfold sanitizeL
  rw [hee, hassoc, urlparsePair_append, htw, hdw, hpq]
  rw [if_neg (by rw [hbr]; simp)]
  simp only [List.isEmpty_cons, Bool.false_eq_true, if_false, hfil, hnllower]
  rw [urlunparse_form hnl spt, hassoc]

theorem pyLowerL_idem (v : List Char) : pyLowerL (pyLowerL v) = pyLowerL v := by
  induction v with
  | nil => rfl
  | cons a t ih =>
    simp only [pyLowerL, List.map_cons] at ih ⊢
    rw [pyLowerChar_idem, ih]

theorem ensureHttps_fixed {b2 : List Char}
    (hstrip : pyStripL ("https://".data ++ b2) = "https://".data ++ b2) :
    ensureHttpsL ("https://".data ++ b2) = "https://".data ++ b2 := by
  unfold ensureHttpsL
  rw [hstrip]
  rw [if_neg (by simp)]
  rw [if_neg (by rw [https_not_http]; simp)]
  rw [isPrefixOf_append_self]
  simp

/-- Claim C6, amended: `sanitize_url` is idempotent on every input that is
    nonempty after trimming whitespace and whose parse either fails or
    produces a nonempty network location.  (The unrestricted claim is
    refuted by `sanitize_url_empty_cex`: the empty string maps to
    `https:/` and then to `https://https:/`.)  Stated at the
    character-list level; `sanitize_url_idem` lifts it to strings. -/
theorem sanitizeL_idem {l : List Char}
    (hne : pyStripL l ≠ [])
    (hnl : (match urlparsePair (ensureHttpsL l) with
            | Option.none => true
            | some (nlp, _) => !nlp.isEmpty) = true) :
    sanitizeL (sanitizeL l) = sanitizeL l := by
  obtain ⟨b, hb⟩ := ensureHttps_body hne
  have hestrip : pyStripL (ensureHttpsL l) = ensureHttpsL l := ensureHttps_strip hne
  have hee : ensureHttpsL (ensureHttpsL l) = ensureHttpsL l := by
    conv in ensureHttpsL (ensureHttpsL l) => rw [hb]
    rw [hb] at hestrip ⊢
    exact ensureHttps_fixed hestrip
  cases hp : urlparsePair (ensureHttpsL l) with
  | none =>
    have h1 : sanitizeL l = ensureHttpsL l := by
      unfold sanitizeL
      rw [hp]
    rw [h1]
    unfold sanitizeL
    rw [hee, hp]
  | some pr =>
    obtain ⟨nlp, path⟩ := pr
    rw [hp] at hnl
    simp only [Bool.not_eq_true'] at hnl
    have hnlpne : nlp ≠ [] := by
      intro hcon
      rw [hcon] at hnl
      simp at hnl
    have hp0 := hp
    rw [hb, urlparsePair_append] at hp
    by_cases hbr : ((('[' ∈ b.takeWhile (fun c => c ≠ '/' && c ≠ '?' && c ≠ '#')) : Bool) !=
        ((']' ∈ b.takeWhile (fun c => c ≠ '/' && c ≠ '?' && c ≠ '#')) : Bool)) = true
    · rw [if_pos hbr] at hp
      exact absurd hp (by simp)
    · rw [if_neg hbr] at hp
      have hpair := hp
      simp only [Option.some.injEq, Prod.mk.injEq] at hpair
      obtain ⟨hnlp, hpath⟩ := hpair
      -- the sanitized path is a slash-led list of safe characters
      have hsp : ∃ spt, (if path.isEmpty then ['/'] else path).filter safePathChar =
          '/' :: spt ∧ ∀ c ∈ ('/' :: spt), safePathChar c = true := by
        cases hdw : b.dropWhile (fun c => c ≠ '/' && c ≠ '?' && c ≠ '#') with
        | nil =>
          rw [hdw] at hpath
          simp only [List.takeWhile_nil] at hpath
          rw [← hpath]
          exact ⟨[], rfl, by decide⟩
        | cons c rest =>
          have hcnot : (c ≠ '/' && c ≠ '?' && c ≠ '#') = false := by
            apply head?_dropWhile_false (v := b)
              (p := fun c => c ≠ '/' && c ≠ '?' && c ≠ '#')
            rw [hdw]
            rfl
          simp only [Bool.and_eq_false_iff, decide_eq_false_iff_not, ne_eq,
            not_not] at hcnot
          rcases hcnot with (rfl | rfl) | rfl
          · -- the path starts with a slash
            rw [hdw] at hpath
            rw [List.takeWhile_cons, if_pos (by decide)] at hpath
            rw [← hpath]
            simp only [List.isEmpty_cons, Bool.false_eq_true, if_false]
            refine ⟨(rest.takeWhile (fun c => c ≠ '?' && c ≠ '#')).filter safePathChar,
              by rw [List.filter_cons, if_pos (by decide)], ?_⟩
            intro c hc
            rcases List.mem_cons.mp hc with rfl | hc2
            · decide
            · exact List.of_mem_filter hc2
          · -- a query begins immediately: empty path
            rw [hdw] at hpath
            rw [List.takeWhile_cons, if_neg (by decide)] at hpath
            rw [← hpath]
            exact ⟨[], rfl, by decide⟩
          · -- a fragment begins immediately: empty path
            rw [hdw] at hpath
            rw [List.takeWhile_cons, if_neg (by decide)] at hpath
            rw [← hpath]
            exact ⟨[], rfl, by decide⟩
      obtain ⟨spt, hspt, hsafe⟩ := hsp
      have hlne : pyLowerL nlp ≠ [] := by
        intro hcon
        unfold pyLowerL at hcon
        exact hnlpne (List.map_eq_nil.mp hcon)
      have h1 : sanitizeL l = "https://".data ++ pyLowerL nlp ++ ('/' :: spt) := by
        unfold sanitizeL
        rw [hp0]
        simp only [hspt]
        exact urlunparse_form hlne spt
      rw [h1]
      apply sanitizeL_canonical hlne ?net ?lower ?br hsafe
      case net =>
        intro c hc
        obtain ⟨x, hx, rfl⟩ := List.mem_map.mp hc
        rw [← hnlp] at hx
        have h0 := List.mem_takeWhile_imp hx
        exact lower_netChar (by simpa using h0)
      case lower => exact pyLowerL_idem nlp
      case br =>
        have hbr2 : ((('[' ∈ nlp) : Bool) != ((']' ∈ nlp) : Bool)) = false := by
          rw [← hnlp]
          exact Bool.eq_false_iff.mpr hbr
        rw [bne_eq_false_iff_eq] at hbr2 ⊢
        rw [decide_eq_decide.mpr (mem_lower_iff (by decide) (by decide)),
          decide_eq_decide.mpr (mem_lower_iff (by decide) (by decide))]
        exact hbr2

/-- Counterexample to claim C6 as stated: the empty string is not a fixed
    point after one application — `sanitize_url("")` is `https:/`, and
    sanitizing that again prepends a scheme and treats `https:` as a
    netloc, giving `https://https:/`. -/
theorem sanitize_url_empty_cex :
    sanitize_url (sanitize_url "") ≠ sanitize_url "" := by decide

/-- Claim C6, amended, at the string level: `sanitize_url` is idempotent
    for every input that is nonempty after trimming whitespace and whose
    `ensure_https` form parses with a nonempty netloc (or fails to
    parse). -/
theorem sanitize_url_idem (x : String)
    (hne : pyStripL x.data ≠ [])
    (hnl : (match urlparsePair (ensureHttpsL x.data) with
            | Option.none => true
            | some (nlp, _) => !nlp.isEmpty) = true) :
    sanitize_url (sanitize_url x) = sanitize_url x :=
  congrArg String.mk (sanitizeL_idem hne hnl)

theorem sanitize_url_idem_witness :
    sanitize_url (sanitize_url "Example.com/About Us?q=1#top") =
      sanitize_url "Example.com/About Us?q=1#top" :=
  sanitize_url_idem "Example.com/About Us?q=1#top" (by decide) (by decide)

/-! ## Claim C10 — discover_urls output invariant -/

theorem is_safe_empty_strip {l : List Char} (hcon : pyStripL l = []) :
    is_safe_domainL l = false := by
  unfold is_safe_domainL
  rw [hcon]
  rfl

theorem safe_strip_ne {s : String} (h : is_safe_domain s = true) :
    pyStripL s.data ≠ [] := by
  intro hcon
  unfold is_safe_domain at h
  rw [is_safe_empty_strip hcon] at h
  exact absurd h (by decide)

theorem https_slashes : "https://".data = "https:".data ++ ['/', '/'] := rfl

theorem ensure_https_starts {s : String} (h : pyStripL s.data ≠ []) :
    strStartsWith (ensure_https s) "https:" = true := by
  obtain ⟨b, hb⟩ := ensureHttps_body h
  unfold strStartsWith ensure_https
  rw [hb, https_slashes, List.append_assoc]
  exact isPrefixOf_append_self _ _

theorem startsWith_append_left {s : String} (t : String)
    (h : strStartsWith s "https:" = true) :
    strStartsWith (s ++ t) "https:" = true := by
  unfold strStartsWith at h ⊢
  obtain ⟨r, hr⟩ := isPrefixOf_iff_exists.mp h
  rw [String.data_append, hr, List.append_assoc]
  exact isPrefixOf_append_self _ _

theorem urlparsePair_none_prefixed {v : List Char} (h : urlparsePair v = Option.none) :
    "https://".data.isPrefixOf v = true := by
  by_cases hpre : "https://".data.isPrefixOf v = true
  · exact hpre
  · unfold urlparsePair at h
    rw [if_neg hpre] at h
    exact absurd h (by simp)

theorem sanitizeL_https (l : List Char) :
    "https:".data.isPrefixOf (sanitizeL l) = true := by
  unfold sanitizeL
  cases hp : urlparsePair (ensureHttpsL l) with
  | none =>
    obtain ⟨t, ht⟩ := isPrefixOf_iff_exists.mp (urlparsePair_none_prefixed hp)
    rw [ht, https_slashes, List.append_assoc]
    exact isPrefixOf_append_self _ _
  | some pr =>
    obtain ⟨nl, path⟩ := pr
    exact isPrefixOf_append_self _ _

theorem sanitize_https (v : String) : strStartsWith (sanitize_url v) "https:" = true :=
  sanitizeL_https v.data

theorem mapLinkOf_sanitized {it : Py} {u : String} (h : mapLinkOf it = some u) :
    ∃ v, u = sanitize_url v := by
  cases it with
  | str v =>
    simp only [mapLinkOf] at h
    by_cases hcond : (KEY_PAGES.any fun k => strContains ⟨pyLowerL v.data⟩ k) = true
    · rw [if_pos hcond] at h
      exact ⟨v, (Option.some_inj.mp h).symm⟩
    · rw [if_neg hcond] at h
      exact absurd h (by simp)
  | dict ikvs =>
    simp only [mapLinkOf] at h
    cases hurl : pyGet ikvs "url" with
    | str v =>
      rw [hurl] at h
      have h2 : (if (KEY_PAGES.any fun k => strContains ⟨pyLowerL v.data⟩ k) = true
          then some (sanitize_url v) else Option.none) = some u := h
      by_cases hcond : (KEY_PAGES.any fun k => strContains ⟨pyLowerL v.data⟩ k) = true
      · rw [if_pos hcond] at h2
        exact ⟨v, (Option.some_inj.mp h2).symm⟩
      · rw [if_neg hcond] at h2
        exact absurd h2 (by simp)
    | dict d2 => rw [hurl] at h; exact absurd h (by simp)
    | list d2 => rw [hurl] at h; exact absurd h (by simp)
    | none => rw [hurl] at h; exact absurd h (by simp)
    | int n => rw [hurl] at h; exact absurd h (by simp)
  | list d2 => exact absurd h (by simp [mapLinkOf])
  | none => exact absurd h (by simp [mapLinkOf])
  | int n => exact absurd h (by simp [mapLinkOf])

theorem mem_mapLinks {payload : Py} {u : String} (h : u ∈ mapLinks payload) :
    ∃ v, u = sanitize_url v := by
  cases payload with
  | dict kvs =>
    simp only [mapLinks] at h
    cases hitems : mapItems kvs with
    | none =>
      rw [hitems] at h
      exact absurd h (List.not_mem_nil u)
    | some ls =>
      rw [hitems] at h
      obtain ⟨it, _, hit⟩ := List.mem_filterMap.mp h
      exact mapLinkOf_sanitized hit
  | str s => exact absurd h (List.not_mem_nil u)
  | list ls => exact absurd h (List.not_mem_nil u)
  | none => exact absurd h (List.not_mem_nil u)
  | int n => exact absurd h (List.not_mem_nil u)

theorem mem_extract_urls {site : String} {items : List (List (String × Py))} {u : String}
    (h : u ∈ extract_urls site items) : ∃ v, u = sanitize_url v := by
  unfold extract_urls at h
  obtain ⟨kvs, _, hit⟩ := List.mem_filterMap.mp h
  rcases hval : pyOr (pyGet kvs "link") (pyOr (pyGet kvs "url") (pyGet kvs "href")) with
    s | d | ls | _ | n <;> rw [hval] at hit
  · exact ⟨_, (Option.some_inj.mp hit).symm⟩
  all_goals exact absurd hit (by simp)

theorem foldl_step_mem {step : List String → String → List String} (P : String → Prop)
    (hstep : ∀ acc u x, x ∈ step acc u → x ∈ acc ∨ P x) :
    ∀ (chosen : List String) (acc : List String) (x : String),
      x ∈ chosen.foldl step acc → x ∈ acc ∨ P x := by
  intro chosen
  induction chosen with
  | nil => intro acc x hx; exact Or.inl hx
  | cons a rest ih =>
    intro acc x hx
    simp only [List.foldl_cons] at hx
    rcases ih (step acc a) x hx with hm | hm
    · exact hstep acc a x hm
    · exact Or.inr hm

theorem foldl_step_nodup {step : List String → String → List String}
    (hstep : ∀ acc u, step acc u = acc ∨ ∃ v, v ∉ acc ∧ step acc u = acc ++ [v]) :
    ∀ (chosen : List String) (acc : List String),
      acc.Nodup → (chosen.foldl step acc).Nodup := by
  intro chosen
  induction chosen with
  | nil => intro acc h; exact h
  | cons a rest ih =>
    intro acc h
    simp only [List.foldl_cons]
    rcases hstep acc a with hs | ⟨v, hv, hs⟩
    · rw [hs]; exact ih acc h
    · rw [hs]
      refine ih _ (List.nodup_append.mpr ⟨h, List.nodup_singleton v, ?_⟩)
      intro x hx hxv
      simp only [List.mem_singleton] at hxv
      exact hv (hxv ▸ hx)

theorem discover_urls_eq (debug : Bool) (domain : String) (mapped : List String)
    (s1 s2 : List (List (String × Py))) (pick : Py × Py × Py) (mc : Nat)
    (hsafe : is_safe_domain domain = true) :
    discover_urls debug domain mapped s1 s2 pick mc =
      (if ((discoverChosen pick).foldl (discoverStep (discoverSite domain)) []).isEmpty
       then ((dedupe (discoverCands debug domain mapped s1 s2)).take mc).take 3
       else (discoverChosen pick).foldl (discoverStep (discoverSite domain)) []).take
        (if debug then 2 else 6) := by
  unfold discover_urls discoverChosen discoverStep discoverSite discoverCands
  rw [hsafe]
  rfl

theorem discoverCands_https (debug : Bool) (domain : String) (mapped : List String)
    (s1 s2 : List (List (String × Py)))
    (hsafe : is_safe_domain domain = true)
    (hmapped : ∀ u ∈ mapped, strStartsWith u "https:" = true) :
    ∀ u ∈ discoverCands debug domain mapped s1 s2, strStartsWith u "https:" = true := by
  intro u hu
  unfold discoverCands at hu
  by_cases hempty : (mapped ++ extract_urls (discoverSite domain) s1 ++
      (if debug then [] else extract_urls (discoverSite domain) s2)).isEmpty = true
  · rw [if_pos hempty] at hu
    unfold commonsList at hu
    have hbase : strStartsWith (sanitize_url domain) "https:" = true :=
      sanitize_https domain
    simp only [List.mem_cons, List.not_mem_nil, or_false] at hu
    rcases hu with rfl | rfl | rfl | rfl | rfl | rfl | rfl
    · exact hbase
    all_goals exact startsWith_append_left _ hbase
  · rw [if_neg hempty] at hu
    rcases List.mem_append.mp hu with hu2 | hu2
    · rcases List.mem_append.mp hu2 with hu3 | hu3
      · exact hmapped u hu3
      · obtain ⟨v, rfl⟩ := mem_extract_urls hu3
        exact sanitize_https v
    · by_cases hdbg : debug = true
      · rw [if_pos hdbg] at hu2
        exact absurd hu2 (List.not_mem_nil u)
      · rw [if_neg hdbg] at hu2
        obtain ⟨v, rfl⟩ := mem_extract_urls hu2
        exact sanitize_https v

theorem discoverStep_cases (site : String) (acc : List String) (u : String) :
    discoverStep site acc u = acc ∨
      ∃ v, v ∉ acc ∧ discoverStep site acc u = acc ++ [v] ∧
        ∃ w, v = sanitize_url w := by
  unfold discoverStep
  by_cases hmem : sanitize_url (if strStartsWith u "/" && !strStartsWith u "//"
      then urljoinPathAbs site u else u) ∈ acc
  · rw [if_pos hmem]; exact Or.inl rfl
  · rw [if_neg hmem]
    exact Or.inr ⟨_, hmem, rfl, _, rfl⟩

theorem find_candidate_urls_https {domain : String} {mapRes : Except PyExc Py}
    {mapped : List String}
    (hsafe : is_safe_domain domain = true)
    (hmap : find_candidate_urls domain mapRes = Except.ok mapped) :
    ∀ u ∈ mapped, strStartsWith u "https:" = true := by
  unfold find_candidate_urls at hmap
  rw [hsafe] at hmap
  simp only [Bool.not_true, Bool.false_eq_true, if_false, Except.ok.injEq] at hmap
  intro u hu
  rw [← hmap] at hu
  have hu2 := mem_dedupe (List.mem_of_mem_take hu)
  rcases List.mem_append.mp hu2 with hu3 | hu3
  · unfold seedUrls at hu3
    have hpre : strStartsWith (ensure_https domain) "https:" = true :=
      ensure_https_starts (safe_strip_ne hsafe)
    rcases List.mem_cons.mp hu3 with rfl | hu4
    · exact hpre
    · obtain ⟨p, _, rfl⟩ := List.mem_map.mp hu4
      exact startsWith_append_left _ (startsWith_append_left _ hpre)
  · cases mapRes with
    | ok payload =>
      obtain ⟨v, rfl⟩ := mem_mapLinks hu3
      exact sanitize_https v
    | error e => exact absurd hu3 (List.not_mem_nil u)

/-- Claim C10, amended: for every safe domain and every outcome of the
    probing (via `FirecrawlTool.find_candidate_urls` as the prober),
    search, and ranking steps, every element of the list
    `DiscoveryPlanner.discover_urls` returns begins with `https:` — not
    always `https://`, see `discover_urls_scheme_cex` — and no element
    occurs more than once. -/
theorem discover_urls_invariant (debug : Bool) (domain : String)
    (mapRes : Except PyExc Py) (mapped : List String)
    (s1 s2 : List (List (String × Py))) (pick : Py × Py × Py) (mc : Nat)
    (hsafe : is_safe_domain domain = true)
    (hmap : find_candidate_urls domain mapRes = Except.ok mapped) :
    (∀ u ∈ discover_urls debug domain mapped s1 s2 pick mc,
        strStartsWith u "https:" = true) ∧
    (discover_urls debug domain mapped s1 s2 pick mc).Nodup := by
  have hmapped := find_candidate_urls_https hsafe hmap
  rw [discover_urls_eq debug domain mapped s1 s2 pick mc hsafe]
  have hcands := discoverCands_https debug domain mapped s1 s2 hsafe hmapped
  have hstepm : ∀ acc u x, x ∈ discoverStep (discoverSite domain) acc u →
      x ∈ acc ∨ ∃ w, x = sanitize_url w := by
    intro acc u x hx
    rcases discoverStep_cases (discoverSite domain) acc u with hs | ⟨v, _, hs, w, rfl⟩
    · rw [hs] at hx; exact Or.inl hx
    · rw [hs] at hx
      rcases List.mem_append.mp hx with hm | hm
      · exact Or.inl hm
      · simp only [List.mem_singleton] at hm
        exact Or.inr ⟨w, hm⟩
  have hstepn : ∀ acc u, discoverStep (discoverSite domain) acc u = acc ∨
      ∃ v, v ∉ acc ∧ discoverStep (discoverSite domain) acc u = acc ++ [v] := by
    intro acc u
    rcases discoverStep_cases (discoverSite domain) acc u with hs | ⟨v, hv, hs, _⟩
    · exact Or.inl hs
    · exact Or.inr ⟨v, hv, hs⟩
  constructor
  · intro u hu
    have hu2 := List.mem_of_mem_take hu
    by_cases hout : ((discoverChosen pick).foldl
        (discoverStep (discoverSite domain)) []).isEmpty = true
    · rw [if_pos hout] at hu2
      exact hcands u (mem_dedupe (List.mem_of_mem_take (List.mem_of_mem_take hu2)))
    · rw [if_neg hout] at hu2
      rcases foldl_step_mem (fun x => ∃ w, x = sanitize_url w) hstepm
          (discoverChosen pick) [] u hu2 with hm | ⟨w, rfl⟩
      · exact absurd hm (List.not_mem_nil u)
      · exact sanitize_https w
  · apply List.Nodup.sublist (List.take_sublist _ _)
    by_cases hout : ((discoverChosen pick).foldl
        (discoverStep (discoverSite domain)) []).isEmpty = true
    · rw [if_pos hout]
      exact ((nodup_dedupe _).sublist (List.take_sublist _ _)).sublist
        (List.take_sublist _ _)
    · rw [if_neg hout]
      exact foldl_step_nodup hstepn (discoverChosen pick) [] List.nodup_nil

/-- Counterexample to claim C10 as stated: with the real prober, a
    ranking pick of the nonempty-but-blank string `" "` survives the
    truthiness filter and sanitizes to `https:/`, so the returned list is
    `[https:/]`, whose element does not begin with `https://`. -/
theorem discover_urls_scheme_cex :
    discover_urls false "acme.io"
      ((find_candidate_urls "acme.io" (Except.error ⟨"RequestError", "boom"⟩)).toOption.getD [])
      [] [] (llm_select (some (Py.dict [("about", Py.str " ")]))) 15 = ["https:/"] ∧
    strStartsWith "https:/" "https://" = false := ⟨by decide, by decide⟩

theorem discover_urls_invariant_witness :
    (∀ u ∈ discover_urls false "acme.io" ((seedUrls "acme.io").take 8) [] []
        (Py.str "", Py.str "", Py.str "") 15,
      strStartsWith u "https:" = true) ∧
    (discover_urls false "acme.io" ((seedUrls "acme.io").take 8) [] []
        (Py.str "", Py.str "", Py.str "") 15).Nodup :=
  discover_urls_invariant false "acme.io" (Except.error ⟨"RequestError", "boom"⟩)
    ((seedUrls "acme.io").take 8) [] [] (Py.str "", Py.str "", Py.str "") 15
    (by decide) (by rfl)

end InterviewPrep
